import Mathlib

/-!
# snek_c: a shallow embedding of `snek.c` and its verified properties

The program is a terminal Snake game on a fixed 20 x 20 toroidal grid.  The
global variables of `snek.c` become the fields of `State`; every C function
becomes a Lean function on `State`.  A call of `quit`, an out-of-bounds array
access and a loop that does not come back are made explicit in `Res`.

All C `int` values are modelled in `Int`.  Under the preconditions used below
coordinates stay below 20, ring-buffer indexes below 400 and the counters below
401, so no 32-bit overflow can occur in any of the arithmetic modelled here.
The one value that comes from outside, the high score read from the file, is
whatever the library conversion `scan` delivers for the stored text.
-/

namespace Snek

/-! ## Constants and types -/

/-- Number of rows, `ROWS` in the source (20). -/
def ROWS : Int := 20

/-- Number of columns, `COLS` in the source (20). -/
def COLS : Int := 20

/-- Capacity of the ring buffer, `SNAKE_CAP` in the source: `ROWS * COLS`. -/
def SNAKE_CAP : Int := ROWS * COLS

/-- The enum `Cell` of the source, in its order of declaration. -/
inductive Cell where
  | cell_empty
  | cell_egg
  | cell_head
  | cell_body
  deriving DecidableEq, Repr

/-- The struct `Point` of the source: `x` is the row and `y` the column. -/
@[ext]
structure Point where
  x : Int
  y : Int
  deriving DecidableEq, Repr

/-- The enum `Dir` of the source, in its order of declaration. -/
inductive Dir where
  | up
  | down
  | left
  | right
  deriving DecidableEq, Repr

/-- The global variables of `snek.c`, the local `pause_flag` of `main`, and the
part of the environment the program talks to: the content of the `highscore`
file, the number of `rand()` calls made so far and the messages printed. -/
structure State where
  cells : Int → Int → Cell
  snake : Int → Point
  snake_begin : Int
  snake_size : Int
  snake_head_dir : Dir
  head_pos : Point
  score : Int
  high_score : Int
  pause_flag : Bool
  hs_file : Option Int
  rand_calls : Nat
  out : List String

/-- Outcome of running a piece of the program from a state. -/
inductive Res (α : Type) where
  /-- the code ran to its end -/
  | ok (a : α)
  /-- a call of `quit(code)`: the process ended with this final state -/
  | exit (code : Int) (s : State)
  /-- an array was indexed outside its bounds (undefined behaviour in C) -/
  | fault
  /-- the given number of loop iterations was not enough to leave a loop -/
  | spin

/-- Sequencing of two pieces of code. -/
def Res.bind {α β : Type} (r : Res α) (f : α → Res β) : Res β :=
  match r with
  | Res.ok a => f a
  | Res.exit c s => Res.exit c s
  | Res.fault => Res.fault
  | Res.spin => Res.spin

/-! ## Pure helpers -/

/-- Function `mod(a, b)` of the source; the `%` of C is the truncating remainder
`Int.tmod`. -/
def mod (a b : Int) : Int :=
  let res := Int.tmod a b
  if res < 0 then res + b else res

/-- Function `step_point(p, dir)` of the source; the `default:` branch of the C switch
cannot be taken because `Dir` has exactly the four values handled. -/
def step_point (p : Point) (dir : Dir) : Point :=
  match dir with
  | Dir.up => { p with x := mod (p.x - 1) ROWS }
  | Dir.down => { p with x := mod (p.x + 1) ROWS }
  | Dir.left => { p with y := mod (p.y - 1) COLS }
  | Dir.right => { p with y := mod (p.y + 1) COLS }

/-- Index pair valid for `cells[ROWS][COLS]`. -/
def inGrid (x y : Int) : Prop := 0 ≤ x ∧ x < ROWS ∧ 0 ≤ y ∧ y < COLS

instance (x y : Int) : Decidable (inGrid x y) := by
  unfold inGrid; infer_instance

/-- Index valid for `snake[SNAKE_CAP]`. -/
def inSnake (i : Int) : Prop := 0 ≤ i ∧ i < SNAKE_CAP

instance (i : Int) : Decidable (inSnake i) := by
  unfold inSnake; infer_instance

/-- The grid with the cell at `(x, y)` overwritten. -/
def setCell (g : Int → Int → Cell) (x y : Int) (c : Cell) : Int → Int → Cell :=
  fun a b => if a = x ∧ b = y then c else g a b

/-- The ring-buffer array with slot `i` overwritten. -/
def setSlot (a : Int → Point) (i : Int) (p : Point) : Int → Point :=
  fun j => if j = i then p else a j

/-! ## High score and `quit` -/

/-- Function `set_high_score()`: the file is rewritten only when
`score > high_score`. -/
def set_high_score (s : State) : State :=
  if s.score > s.high_score then { s with hs_file := some s.score } else s

/-- A `printf` or `puts` of one of the messages of the game. -/
def print (msg : String) (s : State) : State :=
  { s with out := s.out ++ [msg] }

/-- Function `quit(exit_code)`: store the high score, then leave the process. -/
def quit {α : Type} (exit_code : Int) (s : State) : Res α :=
  Res.exit exit_code (set_high_score s)

/-! ## Grid access -/

/-- Read through `*cell_at(x, y)`. -/
def cell_at_get (x y : Int) (s : State) : Res Cell :=
  if inGrid x y then Res.ok (s.cells x y) else Res.fault

/-- Write through `*cell_at(x, y) = c`. -/
def cell_at_set (x y : Int) (c : Cell) (s : State) : Res State :=
  if inGrid x y then Res.ok { s with cells := setCell s.cells x y c } else Res.fault

/-! ## The ring buffer -/

/-- Function `snake_add(x, y)` of the source. -/
def snake_add (x y : Int) (s : State) : Res State :=
  if s.snake_size ≥ SNAKE_CAP then
    quit 0 (print "You Won!" s)
  else
    (cell_at_set x y Cell.cell_body s).bind fun s1 =>
      let add_at := Int.tmod (s1.snake_begin + s1.snake_size) SNAKE_CAP
      if inSnake add_at then
        Res.ok { s1 with snake := setSlot s1.snake add_at ⟨x, y⟩,
                         snake_size := s1.snake_size + 1 }
      else Res.fault

/-- Function `snake_del()` of the source. -/
def snake_del (s : State) : Res State :=
  if s.snake_size ≤ 0 then
    quit 1 (print "Assertion Failed: Snake underflow!" s)
  else if inSnake s.snake_begin then
    let x := (s.snake s.snake_begin).x
    let y := (s.snake s.snake_begin).y
    (cell_at_set x y Cell.cell_empty s).bind fun s1 =>
      Res.ok { s1 with snake_size := s1.snake_size - 1,
                       snake_begin := Int.tmod (s1.snake_begin + 1) SNAKE_CAP }
  else Res.fault

/-! ## Egg spawner -/

/-- Function `spawn_egg()` of the source.  `rng i` is the value returned by the `i`-th call of
`rand()` (never negative); `fuel` bounds the number of iterations of the
`while (1)` loop, and `Res.spin` is returned when they are used up. -/
def spawn_egg (rng : Nat → Nat) : Nat → State → Res State
  | 0, _ => Res.spin
  | fuel + 1, s =>
    let rand_x := Int.tmod (rng s.rand_calls : Int) ROWS
    let rand_y := Int.tmod (rng (s.rand_calls + 1) : Int) COLS
    let s1 := { s with rand_calls := s.rand_calls + 2 }
    (cell_at_get rand_x rand_y s1).bind fun c =>
      if c = Cell.cell_empty then cell_at_set rand_x rand_y Cell.cell_egg s1
      else spawn_egg rng fuel s1

/-! ## The main loop -/

/-- What `read(STDIN_FILENO, &key, 1)` delivered in one loop iteration. -/
inductive Input where
  /-- one byte was read -/
  | key (c : Char)
  /-- nothing was read and `errno` is `EAGAIN` -/
  | nothing
  /-- nothing was read and `errno` is not `EAGAIN` -/
  | failure

/-- The `switch (key)` of `main` (lines 89-111). -/
def main_key (key : Char) (s : State) : Res State :=
  if key = 'k' then
    Res.ok (if s.snake_head_dir ≠ Dir.down then { s with snake_head_dir := Dir.up } else s)
  else if key = 'j' then
    Res.ok (if s.snake_head_dir ≠ Dir.up then { s with snake_head_dir := Dir.down } else s)
  else if key = 'h' then
    Res.ok (if s.snake_head_dir ≠ Dir.right then { s with snake_head_dir := Dir.left } else s)
  else if key = 'l' then
    Res.ok (if s.snake_head_dir ≠ Dir.left then { s with snake_head_dir := Dir.right } else s)
  else if key = 'q' then
    quit 0 s
  else if key = 'p' then
    Res.ok { s with pause_flag := !s.pause_flag }
  else Res.ok s

/-- The input part of one loop iteration (lines 87-118). -/
def main_input (inp : Input) (s : State) : Res State :=
  match inp with
  | Input.key c => main_key c s
  | Input.nothing => Res.ok s
  | Input.failure => quit 1 s

/-- The body of `if (!pause_flag)` in `main` (lines 121-142): one tick. -/
def main_tick (rng : Nat → Nat) (fuel : Nat) (s : State) : Res State :=
  (cell_at_set s.head_pos.x s.head_pos.y Cell.cell_body s).bind fun s1 =>
    let s2 := { s1 with head_pos := step_point s1.head_pos s1.snake_head_dir }
    (cell_at_get s2.head_pos.x s2.head_pos.y s2).bind fun head_state =>
      (if head_state = Cell.cell_body then
          quit 0 (print "You lost!\n" s2)
        else if head_state = Cell.cell_egg then
          spawn_egg rng fuel { s2 with score := s2.score + 1 }
        else
          snake_del s2).bind fun s3 =>
        (snake_add s3.head_pos.x s3.head_pos.y s3).bind fun s4 =>
          cell_at_set s4.head_pos.x s4.head_pos.y Cell.cell_head s4

/-- One iteration of the `while (1)` loop of `main` (display and sleep left out). -/
def main_iter (rng : Nat → Nat) (fuel : Nat) (inp : Input) (s : State) : Res State :=
  (main_input inp s).bind fun s1 =>
    if !s1.pause_flag then main_tick rng fuel s1 else Res.ok s1

/-! ## Vocabulary of the specification -/

/-- The key bound to a direction request: k = up, j = down, h = left, l = right. -/
def dirKey : Dir → Char
  | Dir.up => 'k'
  | Dir.down => 'j'
  | Dir.left => 'h'
  | Dir.right => 'l'

/-- The exact reverse of a heading. -/
def reverseDir : Dir → Dir
  | Dir.up => Dir.down
  | Dir.down => Dir.up
  | Dir.left => Dir.right
  | Dir.right => Dir.left

/-- The `i`-th point of the snake counted from the tail:
`snake[(snake_begin + i) % SNAKE_CAP]`. -/
def seg (s : State) (i : Int) : Point :=
  s.snake (Int.tmod (s.snake_begin + i) SNAKE_CAP)

/-- Logical content of the ring buffer, oldest point (the tail) first. -/
def contents (s : State) : List Point :=
  (List.range s.snake_size.toNat).map fun (i : Nat) => seg s (i : Int)

/-- Grid and snake agree: the ring buffer holds between 1 and `SNAKE_CAP`
pairwise distinct in-range points, `head_pos` is the newest of them and its cell
is `cell_head`, the cells of the other points are `cell_body`, every other cell
is `cell_empty` or `cell_egg`, and at most one cell is `cell_egg`. -/
structure Consistent (s : State) : Prop where
  begin_ok : inSnake s.snake_begin
  size_pos : 0 < s.snake_size
  size_le : s.snake_size ≤ SNAKE_CAP
  nodup : (contents s).Nodup
  in_grid : ∀ p ∈ contents s, inGrid p.x p.y
  head_last : (contents s).getLast? = some s.head_pos
  head_cell : s.cells s.head_pos.x s.head_pos.y = Cell.cell_head
  body_cell : ∀ p ∈ contents s, p ≠ s.head_pos → s.cells p.x p.y = Cell.cell_body
  rest : ∀ x y, inGrid x y → (⟨x, y⟩ : Point) ∉ contents s →
    s.cells x y = Cell.cell_empty ∨ s.cells x y = Cell.cell_egg
  one_egg : ∀ x y a b, inGrid x y → inGrid a b →
    s.cells x y = Cell.cell_egg → s.cells a b = Cell.cell_egg → x = a ∧ y = b

/-- The cell examined by the `n`-th and `n+1`-st call of `rand()` in `spawn_egg`. -/
def draw (rng : Nat → Nat) (n : Nat) : Point :=
  ⟨Int.tmod (rng n : Int) ROWS, Int.tmod (rng (n + 1) : Int) COLS⟩

/-- All index pairs of `cells[ROWS][COLS]`. -/
def gridPoints : List Point :=
  (List.range SNAKE_CAP.toNat).map fun (k : Nat) => ⟨(k : Int) / COLS, (k : Int) % COLS⟩

/-- Number of grid cells that are not `cell_empty`. -/
def occupancy (g : Int → Int → Cell) : Nat :=
  gridPoints.countP fun p => decide (g p.x p.y ≠ Cell.cell_empty)

/-- A call of one of the two ring-buffer operations. -/
inductive Op where
  | add (x y : Int)
  | del

/-- Run a sequence of `snake_add` / `snake_del` calls, stopping at the first one
that does not return. -/
def run_ops : List Op → State → Res State
  | [], s => Res.ok s
  | Op.add x y :: ops, s => (snake_add x y s).bind (run_ops ops)
  | Op.del :: ops, s => (snake_del s).bind (run_ops ops)

/-- The queue of the specification: `add` appends at the back when the point is
on the grid and fewer than `SNAKE_CAP` points are queued, `del` drops the front
of a non-empty queue; any other call fails. -/
def fifo_run : List Op → List Point → Option (List Point)
  | [], q => some q
  | Op.add x y :: ops, q =>
    if inGrid x y ∧ (q.length : Int) < SNAKE_CAP then fifo_run ops (q ++ [⟨x, y⟩]) else none
  | Op.del :: ops, q =>
    match q with
    | [] => none
    | _ :: q' => fifo_run ops q'

/-- Number of `add` calls in a sequence. -/
def countAdd (ops : List Op) : Nat :=
  ops.countP fun o => match o with
    | Op.add _ _ => true
    | Op.del => false

/-- Number of `del` calls in a sequence. -/
def countDel (ops : List Op) : Nat :=
  ops.countP fun o => match o with
    | Op.add _ _ => false
    | Op.del => true

/-- The globals as the C runtime initialises them, before `main` runs, with the
high score `hs` already loaded from a file holding `hs`. -/
def start (hs : Int) : State :=
  { cells := fun _ _ => Cell.cell_empty
    snake := fun _ => ⟨0, 0⟩
    snake_begin := 0
    snake_size := 0
    snake_head_dir := Dir.up
    head_pos := ⟨0, 0⟩
    score := 0
    high_score := hs
    pause_flag := false
    hs_file := some hs
    rand_calls := 0
    out := [] }

/-- Well-formed ring buffer: indexes in range and every stored point on the grid. -/
def RingOK (s : State) : Prop :=
  inSnake s.snake_begin ∧ 0 ≤ s.snake_size ∧ s.snake_size ≤ SNAKE_CAP ∧
    ∀ p ∈ contents s, inGrid p.x p.y

/-- Closed form of the state after a tick that moves into a free cell: the old
head is demoted, the tail `seg s 0` is dropped by `snake_del`, the stepped head
position is stored by `snake_add` and marked `cell_head` (see `main_tick_moved`). -/
def movedState (s : State) : State :=
  { s with
    cells := setCell (setCell (setCell (setCell s.cells s.head_pos.x s.head_pos.y
        Cell.cell_body) (seg s 0).x (seg s 0).y Cell.cell_empty)
        (step_point s.head_pos s.snake_head_dir).x
        (step_point s.head_pos s.snake_head_dir).y Cell.cell_body)
        (step_point s.head_pos s.snake_head_dir).x
        (step_point s.head_pos s.snake_head_dir).y Cell.cell_head,
    snake := setSlot s.snake (((s.snake_begin + 1) % 400 + (s.snake_size - 1)) % 400)
      ⟨(step_point s.head_pos s.snake_head_dir).x,
        (step_point s.head_pos s.snake_head_dir).y⟩,
    snake_begin := (s.snake_begin + 1) % 400,
    snake_size := s.snake_size - 1 + 1,
    head_pos := step_point s.head_pos s.snake_head_dir }

/-- Closed form of the state after a tick that eats the egg, when `spawn_egg`
needed `k + 1` draws and put the new egg on the last of them (see
`main_tick_ate`). -/
def ateState (rng : Nat → Nat) (k : Nat) (s : State) : State :=
  { s with
    cells := setCell (setCell (setCell (setCell s.cells s.head_pos.x s.head_pos.y
        Cell.cell_body) (draw rng (s.rand_calls + 2 * k)).x
        (draw rng (s.rand_calls + 2 * k)).y Cell.cell_egg)
        (step_point s.head_pos s.snake_head_dir).x
        (step_point s.head_pos s.snake_head_dir).y Cell.cell_body)
        (step_point s.head_pos s.snake_head_dir).x
        (step_point s.head_pos s.snake_head_dir).y Cell.cell_head,
    snake := setSlot s.snake ((s.snake_begin + s.snake_size) % 400)
      ⟨(step_point s.head_pos s.snake_head_dir).x,
        (step_point s.head_pos s.snake_head_dir).y⟩,
    snake_size := s.snake_size + 1,
    head_pos := step_point s.head_pos s.snake_head_dir,
    score := s.score + 1,
    rand_calls := s.rand_calls + 2 * (k + 1) }

/-- The cell the head steps into at the next tick. -/
def ahead (s : State) : Cell :=
  s.cells (step_point s.head_pos s.snake_head_dir).x
    (step_point s.head_pos s.snake_head_dir).y

/-- The `while (1)` loop of `main` run on the inputs delivered by `read`, one per
iteration, until they are used up or the process ends. -/
def main_loop (rng : Nat → Nat) (fuel : Nat) : List Input → State → Res State
  | [], s => Res.ok s
  | inp :: rest, s => (main_iter rng fuel inp s).bind (main_loop rng fuel rest)

/-- Every iteration of the run either is paused or ticks into a `cell_empty` cell
(and no input ends the process). -/
def EmptyRun (rng : Nat → Nat) (fuel : Nat) : List Input → State → Prop
  | [], _ => True
  | inp :: rest, s =>
    ∃ s1, main_input inp s = Res.ok s1 ∧
      (if s1.pause_flag then EmptyRun rng fuel rest s1
       else ahead s1 = Cell.cell_empty ∧
         ∀ s2, main_tick rng fuel s1 = Res.ok s2 → EmptyRun rng fuel rest s2)

/-- A small consistent state: a one-cell snake at (10,10) with heading `d` and the
egg at (10,9), every other cell empty. -/
def demo (d : Dir) : State :=
  { start 0 with
    cells := setCell (setCell (start 0).cells 10 10 Cell.cell_head) 10 9 Cell.cell_egg
    snake := setSlot (start 0).snake 0 ⟨10, 10⟩
    snake_size := 1
    snake_head_dir := d
    head_pos := ⟨10, 10⟩ }

/-- A full grid: the snake runs from (0,1) along row 0, then back and forth
through the rows down to its head at (19,0); the only other cell, (0,0), holds the
egg, and the heading `down` takes the head (with wrap-around) onto it. -/
def fullGrid : State :=
  { start 0 with
    cells := fun x y =>
      if x = 0 ∧ y = 0 then Cell.cell_egg
      else if x = 19 ∧ y = 0 then Cell.cell_head
      else Cell.cell_body
    snake := fun i =>
      ⟨(i + 1) / 20, if (i + 1) / 20 % 2 = 0 then (i + 1) % 20 else 19 - (i + 1) % 20⟩
    snake_size := 399
    snake_head_dir := Dir.down
    head_pos := ⟨19, 0⟩
    score := 398 }

/-! ## Start-up code -/

/-- The `for` loop of `spawn_snake`: each of the `n` iterations calls
`snake_add(head_pos.x, head_pos.y)` and then steps `head_pos` in the heading. -/
def spawn_snake_body : Nat → State → Res State
  | 0, s => Res.ok s
  | n + 1, s =>
    (snake_add s.head_pos.x s.head_pos.y s).bind fun s1 =>
      spawn_snake_body n { s1 with head_pos := step_point s1.head_pos s1.snake_head_dir }

/-- Function `spawn_snake(x, y, dir, size)` of the source; the loop runs for
`i = 0 .. size - 2`, that is `size - 1` times when `size` is positive. -/
def spawn_snake (x y : Int) (dir : Dir) (size : Int) (s : State) : Res State :=
  (spawn_snake_body (size - 1).toNat
      { s with head_pos := ⟨x, y⟩, snake_head_dir := dir }).bind fun s1 =>
    (snake_add s1.head_pos.x s1.head_pos.y s1).bind fun s2 =>
      cell_at_set s2.head_pos.x s2.head_pos.y Cell.cell_head s2

/-- Function `get_high_score()` of the source.  The file `highscore` is either
absent (`none`) or holds the decimal text of an integer `v`; an absent file is
created holding 0.  `scan v` is the value that the library call
`fscanf(file, "%d", &high_score)` leaves in the 32-bit `high_score` for that text:
it is `v` when `v` is representable as an `int`, and whatever the C library
produces otherwise.  The text in the file is not changed by reading it. -/
def get_high_score (scan : Int → Int) (s : State) : State :=
  match s.hs_file with
  | some v => { s with high_score := scan v }
  | none => { s with high_score := 0, hs_file := some 0 }

/-- The globals as the C runtime initialises them before `main` runs, next to a
`highscore` file with content `file`. -/
def globals (file : Option Int) : State :=
  { start 0 with hs_file := file }

/-- The part of `main` before the loop (lines 66-79) that touches the game state:
`get_high_score`, `spawn_snake(ROWS / 2, COLS / 2, left, 1)` and `spawn_egg`. -/
def main_init (rng : Nat → Nat) (fuel : Nat) (scan : Int → Int) (file : Option Int) :
    Res State :=
  (spawn_snake (Int.tdiv ROWS 2) (Int.tdiv COLS 2) Dir.left 1
      (get_high_score scan (globals file))).bind fun s =>
    spawn_egg rng fuel s

/-- The program: start-up, then the main loop on the given inputs. -/
def main_run (rng : Nat → Nat) (fuel : Nat) (scan : Int → Int) (file : Option Int)
    (inputs : List Input) : Res State :=
  (main_init rng fuel scan file).bind (main_loop rng fuel inputs)

/-- The point reached from `p` by `k` steps in direction `d`. -/
def stepN (p : Point) (d : Dir) : Nat → Point
  | 0 => p
  | k + 1 => stepN (step_point p d) d k

/-- The grid dimension along a direction: `ROWS` for up and down, `COLS` for left
and right. -/
def dimAlong : Dir → Int
  | Dir.up => ROWS
  | Dir.down => ROWS
  | Dir.left => COLS
  | Dir.right => COLS

/-- What holds between two iterations of the main loop: grid and snake are
consistent, an egg lies on the grid, the score is the length minus one and nothing
has been printed. -/
structure GameInv (s : State) : Prop where
  consistent : Consistent s
  egg : ∃ x y, inGrid x y ∧ s.cells x y = Cell.cell_egg
  score_eq : s.score = s.snake_size - 1
  silent : s.out = []

/-- A `rand()` sequence whose first draw is the cell (10,9) and whose later draws
are all the cell (0,0). -/
def rngDemo : Nat → Nat := fun i => if i = 0 then 10 else if i = 1 then 9 else 0

/-- The fields outside grid and snake agree in two states. -/
def SameEnv (s t : State) : Prop :=
  t.score = s.score ∧ t.high_score = s.high_score ∧ t.pause_flag = s.pause_flag ∧
    t.hs_file = s.hs_file ∧ t.rand_calls = s.rand_calls ∧ t.out = s.out

/-- What a run of the program may end in, where `hs` is the high score loaded at
start and `f` the file as `get_high_score` left it: a state satisfying `GameInv`
between two iterations, with `high_score` and the file unchanged; an exit through
`quit` from a state with `high_score = hs` and the file still `f`, either with
code 0 after printing "You lost!" or with nothing printed and code 0 (quit key) or
1 (failed read); or an unfinished `spawn_egg` loop.  An out-of-bounds access is
not among them. -/
def Outcome (hs : Int) (f : Option Int) : Res State → Prop
  | Res.ok s => GameInv s ∧ s.high_score = hs ∧ s.hs_file = f
  | Res.exit c st =>
    ∃ t, st = set_high_score t ∧ t.hs_file = f ∧ t.high_score = hs ∧
      0 ≤ t.score ∧ t.score < SNAKE_CAP - 1 ∧
      ((c = 0 ∧ t.out = ["You lost!\n"]) ∨ (t.out = [] ∧ (c = 0 ∨ c = 1)))
  | Res.fault => False
  | Res.spin => True

/-- The head lies one step in the current heading from the segment immediately
behind it (when there is one): the heading is the direction of the last move. -/
def Straight (s : State) : Prop :=
  1 < s.snake_size →
    s.head_pos = step_point (seg s (s.snake_size - 2)) s.snake_head_dir

/-! ## Arithmetic lemmas -/

theorem tmod_of_neg (a b : Int) (ha : a < 0) (hb : 0 < b) :
    Int.tmod a b = -((-a) % b) := by
  obtain ⟨m, rfl⟩ := Int.eq_negSucc_of_lt_zero ha
  obtain ⟨n, rfl⟩ := Int.eq_ofNat_of_zero_le hb.le
  rfl

theorem neg_emod_wrap (r b : Int) (h0 : 0 ≤ r) (h1 : r < b) :
    (-r) % b = if -r < 0 then -r + b else -r := by
  split
  · rw [← Int.add_emod_self, Int.emod_eq_of_lt (by omega) (by omega)]
  · have : r = 0 := by omega
    subst this; simp

theorem mod_eq_emod (a b : Int) (hb : 0 < b) : mod a b = a % b := by
  unfold mod
  rcases lt_or_le a 0 with ha | ha
  · have h1 := tmod_of_neg a b ha hb
    have h2 : 0 ≤ (-a) % b := Int.emod_nonneg _ hb.ne'
    have h3 : (-a) % b < b := Int.emod_lt_of_pos _ hb
    have h4 : a = -((-a) % b) + b * (-((-a) / b)) := by
      have := Int.emod_add_ediv (-a) b
      linarith
    have h5 : a % b = (-((-a) % b)) % b := by
      conv_lhs => rw [h4]
      exact Int.add_mul_emod_self_left _ _ _
    rw [h5, neg_emod_wrap _ _ h2 h3, h1]
  · have h1 : Int.tmod a b = a % b := Int.tmod_eq_emod ha hb.le
    have h2 : 0 ≤ a % b := Int.emod_nonneg _ hb.ne'
    simp only [h1]
    rw [if_neg (by omega)]

theorem step_point_eq (p : Point) (d : Dir) :
    step_point p d =
      match d with
      | Dir.up => ⟨(p.x - 1) % 20, p.y⟩
      | Dir.down => ⟨(p.x + 1) % 20, p.y⟩
      | Dir.left => ⟨p.x, (p.y - 1) % 20⟩
      | Dir.right => ⟨p.x, (p.y + 1) % 20⟩ := by
  cases d <;> simp [step_point, ROWS, COLS, mod_eq_emod]

/-! ## Ring-buffer lemmas -/

theorem tmod_cap (a : Int) (h : 0 ≤ a) : Int.tmod a SNAKE_CAP = a % 400 :=
  Int.tmod_eq_emod h (by decide)

theorem contents_length (s : State) : (contents s).length = s.snake_size.toNat := by
  simp [contents]

theorem snake_add_ok (x y : Int) (s : State) (hb : inSnake s.snake_begin)
    (h0 : 0 ≤ s.snake_size) (h1 : s.snake_size < SNAKE_CAP) (hxy : inGrid x y) :
    snake_add x y s =
      Res.ok { s with cells := setCell s.cells x y Cell.cell_body,
                      snake := setSlot s.snake ((s.snake_begin + s.snake_size) % 400) ⟨x, y⟩,
                      snake_size := s.snake_size + 1 } := by
  unfold inSnake at hb
  have h2 : ¬ s.snake_size ≥ SNAKE_CAP := by omega
  have h3 := tmod_cap (s.snake_begin + s.snake_size) (by omega)
  have h4 : inSnake ((s.snake_begin + s.snake_size) % 400) := by
    unfold inSnake SNAKE_CAP ROWS COLS; omega
  simp [snake_add, h2, cell_at_set, hxy, Res.bind, h3, h4]

theorem contents_snake_add (x y : Int) (s : State) (hb : inSnake s.snake_begin)
    (h0 : 0 ≤ s.snake_size) (h1 : s.snake_size < SNAKE_CAP) :
    contents { s with cells := setCell s.cells x y Cell.cell_body,
                      snake := setSlot s.snake ((s.snake_begin + s.snake_size) % 400) ⟨x, y⟩,
                      snake_size := s.snake_size + 1 } = contents s ++ [⟨x, y⟩] := by
  unfold inSnake at hb
  simp only [SNAKE_CAP, ROWS, COLS] at hb h1
  obtain ⟨n, hn⟩ := Int.eq_ofNat_of_zero_le h0
  simp only [contents, hn]
  have e1 : ((n : Int) + 1).toNat = n + 1 := by omega
  rw [e1, Int.toNat_ofNat, List.range_succ, List.map_append]
  congr 1
  · apply List.map_congr_left
    intro i hi
    rw [List.mem_range] at hi
    simp only [seg, setSlot]
    rw [tmod_cap _ (by omega)]
    rw [if_neg (by omega)]
  · simp only [List.map_cons, List.map_nil, seg, setSlot]
    rw [tmod_cap _ (by omega), if_pos rfl]
theorem snake_del_ok (s : State) (hb : inSnake s.snake_begin)
    (h0 : 0 < s.snake_size) (hin : inGrid (seg s 0).x (seg s 0).y) :
    snake_del s =
      Res.ok { s with cells := setCell s.cells (seg s 0).x (seg s 0).y Cell.cell_empty,
                      snake_size := s.snake_size - 1,
                      snake_begin := (s.snake_begin + 1) % 400 } := by
  have hb' := hb
  unfold inSnake at hb'
  have h2 : ¬ s.snake_size ≤ 0 := by omega
  have h3 := tmod_cap (s.snake_begin + 1) (by omega)
  have h4 : seg s 0 = s.snake s.snake_begin := by
    simp only [seg, add_zero]
    rw [tmod_cap _ hb'.1]
    simp only [SNAKE_CAP, ROWS, COLS] at hb'
    rw [Int.emod_eq_of_lt hb'.1 (by omega)]
  rw [h4] at hin
  simp [snake_del, h2, hb, cell_at_set, hin, Res.bind, h3, h4]

theorem contents_snake_del (s : State) (hb : inSnake s.snake_begin)
    (h0 : 0 < s.snake_size) :
    contents s = seg s 0 ::
      contents { s with cells := setCell s.cells (seg s 0).x (seg s 0).y Cell.cell_empty,
                        snake_size := s.snake_size - 1,
                        snake_begin := (s.snake_begin + 1) % 400 } := by
  unfold inSnake at hb
  simp only [SNAKE_CAP, ROWS, COLS] at hb
  obtain ⟨n, hn⟩ := Int.eq_ofNat_of_zero_le (show 0 ≤ s.snake_size - 1 by omega)
  have hs : s.snake_size = (n : Int) + 1 := by omega
  simp only [contents, hs]
  have e1 : ((n : Int) + 1).toNat = n + 1 := by omega
  have e2 : ((n : Int) + 1 - 1).toNat = n := by omega
  rw [e1, e2, List.range_succ_eq_map, List.map_cons, List.map_map]
  congr 1
  apply List.map_congr_left
  intro i _
  simp only [seg, Function.comp]
  rw [tmod_cap _ (by omega), tmod_cap _ (by omega)]
  congr 1
  push_cast
  omega

theorem snake_add_fault (x y : Int) (s : State) (h1 : s.snake_size < SNAKE_CAP)
    (hxy : ¬ inGrid x y) : snake_add x y s = Res.fault := by
  have h2 : ¬ s.snake_size ≥ SNAKE_CAP := by omega
  simp [snake_add, h2, cell_at_set, hxy, Res.bind]

theorem snake_add_full (x y : Int) (s : State) (h1 : SNAKE_CAP ≤ s.snake_size) :
    snake_add x y s = Res.exit 0 (set_high_score (print "You Won!" s)) := by
  simp [snake_add, h1, quit]

theorem snake_del_empty (s : State) (h1 : s.snake_size ≤ 0) :
    snake_del s = Res.exit 1 (set_high_score (print "Assertion Failed: Snake underflow!" s)) := by
  simp [snake_del, h1, quit]

theorem ringOK_start (hs : Int) : RingOK (start hs) := by
  refine ⟨by simp [start, inSnake, SNAKE_CAP, ROWS, COLS],
    by simp [start], by simp [start, SNAKE_CAP, ROWS, COLS], ?_⟩
  intro p hp
  simp [contents, start] at hp

theorem run_ops_fifo (ops : List Op) : ∀ s : State, RingOK s →
    (∀ q, fifo_run ops (contents s) = some q →
      ∃ s', run_ops ops s = Res.ok s' ∧ RingOK s' ∧ contents s' = q ∧
        s'.snake_size = s.snake_size + countAdd ops - countDel ops ∧
        s'.snake_begin = (s.snake_begin + countDel ops) % 400) ∧
    (fifo_run ops (contents s) = none → ∀ s', run_ops ops s ≠ Res.ok s') := by
  induction ops with
  | nil =>
    intro s hs
    refine ⟨?_, ?_⟩
    · intro q hq
      simp only [fifo_run, Option.some.injEq] at hq
      have hb := hs.1
      simp only [inSnake, SNAKE_CAP, ROWS, COLS] at hb
      refine ⟨s, rfl, hs, hq, by simp [countAdd, countDel], ?_⟩
      simp only [countDel, List.countP_nil, Nat.cast_zero, add_zero]
      omega
    · intro h; simp [fifo_run] at h
  | cons o ops ih =>
    intro s hs
    obtain ⟨hb, h0, hle, hg⟩ := hs
    have hlen : ((contents s).length : Int) = s.snake_size := by
      rw [contents_length]; omega
    cases o with
    | add x y =>
      by_cases hc : inGrid x y ∧ s.snake_size < SNAKE_CAP
      · obtain ⟨hxy, hlt⟩ := hc
        have hok := snake_add_ok x y s hb h0 hlt hxy
        have hct := contents_snake_add x y s hb h0 hlt
        have hs1 : RingOK
            { s with cells := setCell s.cells x y Cell.cell_body,
                     snake := setSlot s.snake ((s.snake_begin + s.snake_size) % 400) ⟨x, y⟩,
                     snake_size := s.snake_size + 1 } := by
          refine ⟨hb, by simp only; omega, by simp only; omega, ?_⟩
          intro p hp
          rw [hct, List.mem_append, List.mem_singleton] at hp
          rcases hp with hp | hp
          · exact hg p hp
          · subst hp; exact hxy
        have := ih _ hs1
        rw [hct] at this
        obtain ⟨ih1, ih2⟩ := this
        have hf : fifo_run (Op.add x y :: ops) (contents s) =
            fifo_run ops (contents s ++ [⟨x, y⟩]) := by
          simp [fifo_run, hxy, hlen, hlt]
        rw [hf]
        refine ⟨?_, ?_⟩
        · intro q hq
          obtain ⟨s', e1, e2, e3, e4, e5⟩ := ih1 q hq
          refine ⟨s', by simp [run_ops, hok, Res.bind, e1], e2, e3, ?_, ?_⟩
          · rw [e4]; simp [countAdd, countDel]; ring
          · rw [e5]; simp [countDel]
        · intro hn s' hs'
          simp only [run_ops, hok, Res.bind] at hs'
          exact ih2 hn s' hs'
      · have hf : fifo_run (Op.add x y :: ops) (contents s) = none := by
          simp only [fifo_run, hlen]
          rw [if_neg hc]
        rw [hf]
        refine ⟨fun q hq => (by cases hq), ?_⟩
        intro _ s' hs'
        by_cases hlt : s.snake_size < SNAKE_CAP
        · have hxy : ¬ inGrid x y := fun h => hc ⟨h, hlt⟩
          simp [run_ops, snake_add_fault x y s hlt hxy, Res.bind] at hs'
        · simp [run_ops, snake_add_full x y s (by omega), Res.bind] at hs'
    | del =>
      rcases eq_or_lt_of_le h0 with hz | hpos
      · have hnil : contents s = [] := by
          apply List.eq_nil_of_length_eq_zero
          rw [contents_length]; omega
        rw [hnil]
        refine ⟨fun q hq => by simp [fifo_run] at hq, ?_⟩
        intro _ s' hs'
        simp [run_ops, snake_del_empty s (by omega), Res.bind] at hs'
      · have hct := contents_snake_del s hb hpos
        have hin : inGrid (seg s 0).x (seg s 0).y := by
          apply hg; rw [hct]; exact List.mem_cons_self _ _
        have hok := snake_del_ok s hb hpos hin
        have hs1 : RingOK
            { s with cells := setCell s.cells (seg s 0).x (seg s 0).y Cell.cell_empty,
                     snake_size := s.snake_size - 1,
                     snake_begin := (s.snake_begin + 1) % 400 } := by
          refine ⟨?_, by simp only; omega, by simp only; omega, ?_⟩
          · simp only [inSnake, SNAKE_CAP, ROWS, COLS]; omega
          · intro p hp
            apply hg; rw [hct]; exact List.mem_cons_of_mem _ hp
        obtain ⟨ih1, ih2⟩ := ih _ hs1
        have hf : ∀ l, fifo_run (Op.del :: ops) (seg s 0 :: l) = fifo_run ops l := by
          intro l; simp [fifo_run]
        rw [hct, hf]
        refine ⟨?_, ?_⟩
        · intro q hq
          obtain ⟨s', e1, e2, e3, e4, e5⟩ := ih1 q hq
          refine ⟨s', by simp [run_ops, hok, Res.bind, e1], e2, e3, ?_, ?_⟩
          · rw [e4]; simp [countAdd, countDel]; ring
          · rw [e5]; simp only [countDel, List.countP_cons_of_pos]
            push_cast
            omega
        · intro hn s' hs'
          simp only [run_ops, hok, Res.bind] at hs'
          exact ih2 hn s' hs'

/-! ## Lemmas on the tick -/

theorem step_point_inGrid (p : Point) (d : Dir) (h : inGrid p.x p.y) :
    inGrid (step_point p d).x (step_point p d).y := by
  unfold inGrid at h ⊢
  simp only [ROWS, COLS] at h ⊢
  cases d <;> simp only [step_point_eq] <;> omega

theorem step_point_ne (p : Point) (d : Dir) :
    ¬ ((step_point p d).x = p.x ∧ (step_point p d).y = p.y) := by
  cases d <;> simp only [step_point_eq] <;> omega

theorem draw_inGrid (rng : Nat → Nat) (n : Nat) :
    inGrid (draw rng n).x (draw rng n).y := by
  unfold inGrid draw
  simp only [ROWS, COLS]
  rw [Int.tmod_eq_emod (by omega) (by omega), Int.tmod_eq_emod (by omega) (by omega)]
  omega

theorem contents_congr (s t : State) (h1 : t.snake = s.snake)
    (h2 : t.snake_begin = s.snake_begin) (h3 : t.snake_size = s.snake_size) :
    contents t = contents s := by
  simp only [contents, seg, h1, h2, h3]

theorem Consistent.head_mem {s : State} (hc : Consistent s) : s.head_pos ∈ contents s :=
  List.mem_of_getLast?_eq_some hc.head_last

theorem Consistent.head_inGrid {s : State} (hc : Consistent s) :
    inGrid s.head_pos.x s.head_pos.y :=
  hc.in_grid _ hc.head_mem

theorem Consistent.next_inGrid {s : State} (hc : Consistent s) (d : Dir) :
    inGrid (step_point s.head_pos d).x (step_point s.head_pos d).y :=
  step_point_inGrid _ _ hc.head_inGrid

theorem Consistent.tail_mem {s : State} (hc : Consistent s) : seg s 0 ∈ contents s := by
  rw [contents_snake_del s hc.begin_ok hc.size_pos]
  exact List.mem_cons_self _ _

theorem main_tick_moved (rng : Nat → Nat) (fuel : Nat) (s : State) (hc : Consistent s)
    (hn : s.cells (step_point s.head_pos s.snake_head_dir).x
      (step_point s.head_pos s.snake_head_dir).y = Cell.cell_empty) :
    main_tick rng fuel s = Res.ok (movedState s) := by
  unfold movedState
  have hh := hc.head_inGrid
  have hnx := hc.next_inGrid s.snake_head_dir
  have hne := step_point_ne s.head_pos s.snake_head_dir
  have ht := hc.in_grid _ hc.tail_mem
  have hb := hc.begin_ok
  have hp := hc.size_pos
  have hl := hc.size_le
  have hd := snake_del_ok
    { s with cells := setCell s.cells s.head_pos.x s.head_pos.y Cell.cell_body,
             head_pos := step_point s.head_pos s.snake_head_dir } hb hp ht
  have ha := snake_add_ok (step_point s.head_pos s.snake_head_dir).x
    (step_point s.head_pos s.snake_head_dir).y
    { s with cells := setCell (setCell s.cells s.head_pos.x s.head_pos.y Cell.cell_body)
               (seg s 0).x (seg s 0).y Cell.cell_empty,
             head_pos := step_point s.head_pos s.snake_head_dir,
             snake_size := s.snake_size - 1,
             snake_begin := (s.snake_begin + 1) % 400 }
    (by simp only [inSnake, SNAKE_CAP, ROWS, COLS]; omega) (by simp only; omega)
    (by simp only; omega) hnx
  have hseg : seg
      { s with cells := setCell s.cells s.head_pos.x s.head_pos.y Cell.cell_body,
               head_pos := step_point s.head_pos s.snake_head_dir } 0 = seg s 0 := rfl
  rw [hseg] at hd
  unfold main_tick
  simp only [cell_at_set, hh, if_true, Res.bind, cell_at_get, hnx, setCell, hne, if_false, hn]
  rw [if_neg (by decide), if_neg (by decide)]
  simp only [hd, ha, hnx, if_true]
theorem spawn_egg_hit (rng : Nat → Nat) : ∀ (k fuel : Nat) (t : State), k < fuel →
    (∀ j, j < k → t.cells (draw rng (t.rand_calls + 2 * j)).x
      (draw rng (t.rand_calls + 2 * j)).y ≠ Cell.cell_empty) →
    t.cells (draw rng (t.rand_calls + 2 * k)).x
      (draw rng (t.rand_calls + 2 * k)).y = Cell.cell_empty →
    spawn_egg rng fuel t =
      Res.ok { t with
        cells := setCell t.cells (draw rng (t.rand_calls + 2 * k)).x
          (draw rng (t.rand_calls + 2 * k)).y Cell.cell_egg,
        rand_calls := t.rand_calls + 2 * (k + 1) } := by
  intro k
  induction k with
  | zero =>
    intro fuel t hf _ hhit
    obtain ⟨f, rfl⟩ : ∃ f, fuel = f + 1 := ⟨fuel - 1, by omega⟩
    have hg := draw_inGrid rng t.rand_calls
    simp only [Nat.mul_zero, Nat.add_zero] at hhit
    simp only [draw] at hg hhit
    simp only [spawn_egg, cell_at_get, hg, if_true, Res.bind, hhit, cell_at_set, draw,
      Nat.mul_zero, Nat.add_zero, Nat.zero_add, Nat.mul_one]
  | succ k ih =>
    intro fuel t hf hmiss hhit
    obtain ⟨f, rfl⟩ : ∃ f, fuel = f + 1 := ⟨fuel - 1, by omega⟩
    have hg := draw_inGrid rng t.rand_calls
    have h0 := hmiss 0 (by omega)
    simp only [Nat.mul_zero, Nat.add_zero] at h0
    simp only [draw] at hg h0
    have e : ∀ j, t.rand_calls + 2 + 2 * j = t.rand_calls + 2 * (j + 1) := by
      intro j; omega
    have := ih f { t with rand_calls := t.rand_calls + 2 } (by omega)
      (by intro j hj; simp only [e]; exact hmiss (j + 1) (by omega))
      (by simp only [e]; exact hhit)
    simp only [e] at this
    simp only [spawn_egg, cell_at_get, hg, if_true, Res.bind, h0, if_false, this]

/-! ## Counting grid cells -/

theorem mem_gridPoints (p : Point) : p ∈ gridPoints ↔ inGrid p.x p.y := by
  unfold gridPoints inGrid
  simp only [SNAKE_CAP, ROWS, COLS, List.mem_map, List.mem_range]
  constructor
  · rintro ⟨k, hk, rfl⟩
    have : (20 * 20 : Int).toNat = 400 := by decide
    rw [this] at hk
    simp only
    omega
  · rintro ⟨h1, h2, h3, h4⟩
    refine ⟨(p.x * 20 + p.y).toNat, ?_, ?_⟩
    · have : (20 * 20 : Int).toNat = 400 := by decide
      rw [this]; omega
    · have e : ((p.x * 20 + p.y).toNat : Int) = p.x * 20 + p.y := by omega
      rw [e]
      cases p with
      | mk x y =>
        simp only [Point.mk.injEq] at h1 h2 h3 h4 ⊢
        constructor <;> omega

theorem gridPoints_nodup : gridPoints.Nodup := by
  unfold gridPoints
  apply List.Nodup.map_on _ (List.nodup_range _)
  intro a _ b _ h
  simp only [COLS, Point.mk.injEq] at h
  omega

theorem gridPoints_length : gridPoints.length = 400 := by
  simp [gridPoints, SNAKE_CAP, ROWS, COLS]

theorem length_lt_of_free (l : List Point) (q : Point) (hn : l.Nodup)
    (hg : ∀ p ∈ l, inGrid p.x p.y) (hq : inGrid q.x q.y) (hql : q ∉ l) :
    (l.length : Int) < SNAKE_CAP := by
  have h1 : (q :: l).Nodup := List.nodup_cons.mpr ⟨hql, hn⟩
  have h2 : (q :: l) ⊆ gridPoints := by
    intro p hp
    rw [mem_gridPoints]
    rcases List.mem_cons.mp hp with h | h
    · rw [h]; exact hq
    · exact hg p h
  have h3 := (h1.subperm h2).length_le
  rw [gridPoints_length, List.length_cons] at h3
  simp only [SNAKE_CAP, ROWS, COLS]
  omega

theorem occupancy_swap (g g' : Int → Int → Cell) (a b : Point) (ha : inGrid a.x a.y)
    (hb : inGrid b.x b.y) (hab : a ≠ b)
    (h1 : g a.x a.y ≠ Cell.cell_empty) (h2 : g' a.x a.y = Cell.cell_empty)
    (h3 : g b.x b.y = Cell.cell_empty) (h4 : g' b.x b.y ≠ Cell.cell_empty)
    (h5 : ∀ p : Point, p ≠ a → p ≠ b →
      (g' p.x p.y = Cell.cell_empty ↔ g p.x p.y = Cell.cell_empty)) :
    occupancy g' = occupancy g := by
  unfold occupancy
  have hma : a ∈ gridPoints := (mem_gridPoints a).mpr ha
  have hmb : b ∈ (gridPoints.erase a) :=
    (gridPoints_nodup.mem_erase_iff).mpr ⟨fun h => hab h.symm, (mem_gridPoints b).mpr hb⟩
  have hp : gridPoints.Perm (a :: b :: (gridPoints.erase a).erase b) :=
    (List.perm_cons_erase hma).trans ((List.perm_cons_erase hmb).cons a)
  rw [hp.countP_eq, hp.countP_eq]
  simp only [List.countP_cons, h1, h2, h3, h4, ne_eq, not_true_eq_false, not_false_eq_true,
    decide_True, decide_False, if_true, if_false]
  have : List.countP (fun p => decide (¬ g' p.x p.y = Cell.cell_empty))
      ((gridPoints.erase a).erase b) =
      List.countP (fun p => decide (¬ g p.x p.y = Cell.cell_empty))
      ((gridPoints.erase a).erase b) := by
    apply List.countP_congr
    intro p hp
    have hnd := gridPoints_nodup.erase a
    obtain ⟨hpb, hp'⟩ := (hnd.mem_erase_iff).mp hp
    obtain ⟨hpa, _⟩ := (gridPoints_nodup.mem_erase_iff).mp hp'
    simp only [decide_eq_true_eq]
    exact not_congr (h5 p hpa hpb)
  omega

theorem Consistent.size_lt_of_free {s : State} (hc : Consistent s) (q : Point)
    (hq : inGrid q.x q.y) (hql : q ∉ contents s) : s.snake_size < SNAKE_CAP := by
  have h := length_lt_of_free (contents s) q hc.nodup hc.in_grid hq hql
  rw [contents_length] at h
  have := hc.size_pos
  omega

theorem Consistent.not_mem_of_cell {s : State} (hc : Consistent s) (q : Point)
    (hq : s.cells q.x q.y = Cell.cell_empty ∨ s.cells q.x q.y = Cell.cell_egg) :
    q ∉ contents s := by
  intro hm
  by_cases hh : q = s.head_pos
  · have := hc.head_cell
    rw [← hh] at this
    rw [this] at hq
    rcases hq with h | h <;> cases h
  · have := hc.body_cell q hm hh
    rw [this] at hq
    rcases hq with h | h <;> cases h

theorem main_tick_ate (rng : Nat → Nat) (fuel k : Nat) (s : State) (hc : Consistent s)
    (hn : s.cells (step_point s.head_pos s.snake_head_dir).x
      (step_point s.head_pos s.snake_head_dir).y = Cell.cell_egg)
    (hk : k < fuel)
    (hmiss : ∀ j, j < k → s.cells (draw rng (s.rand_calls + 2 * j)).x
      (draw rng (s.rand_calls + 2 * j)).y ≠ Cell.cell_empty)
    (hhit : s.cells (draw rng (s.rand_calls + 2 * k)).x
      (draw rng (s.rand_calls + 2 * k)).y = Cell.cell_empty) :
    main_tick rng fuel s = Res.ok (ateState rng k s) := by
  unfold ateState
  have hh := hc.head_inGrid
  have hnx := hc.next_inGrid s.snake_head_dir
  have hne := step_point_ne s.head_pos s.snake_head_dir
  have hb := hc.begin_ok
  have hp := hc.size_pos
  have hlt := hc.size_lt_of_free (step_point s.head_pos s.snake_head_dir) hnx
    (hc.not_mem_of_cell _ (Or.inr hn))
  have hcell : ∀ x y, s.cells x y = Cell.cell_empty ↔
      setCell s.cells s.head_pos.x s.head_pos.y Cell.cell_body x y = Cell.cell_empty := by
    intro x y
    simp only [setCell]
    split
    · rename_i h
      rw [h.1, h.2, hc.head_cell]
      simp
    · rfl
  have hs := spawn_egg_hit rng k fuel
    { s with cells := setCell s.cells s.head_pos.x s.head_pos.y Cell.cell_body,
             head_pos := step_point s.head_pos s.snake_head_dir,
             score := s.score + 1 } hk
    (by intro j hj; exact fun h => hmiss j hj ((hcell _ _).mpr h))
    ((hcell _ _).mp hhit)
  have ha := snake_add_ok (step_point s.head_pos s.snake_head_dir).x
    (step_point s.head_pos s.snake_head_dir).y
    { s with cells := setCell (setCell s.cells s.head_pos.x s.head_pos.y Cell.cell_body)
               (draw rng (s.rand_calls + 2 * k)).x
               (draw rng (s.rand_calls + 2 * k)).y Cell.cell_egg,
             head_pos := step_point s.head_pos s.snake_head_dir,
             score := s.score + 1,
             rand_calls := s.rand_calls + 2 * (k + 1) }
    hb (by simp only; omega) hlt hnx
  unfold main_tick
  simp only [cell_at_set, hh, if_true, Res.bind, cell_at_get, hnx, setCell, hne, if_false, hn]
  rw [if_neg (by decide)]
  simp only [hs, ha, hnx, if_true]

theorem main_tick_lost (rng : Nat → Nat) (fuel : Nat) (s : State)
    (hh : inGrid s.head_pos.x s.head_pos.y)
    (hn : setCell s.cells s.head_pos.x s.head_pos.y Cell.cell_body
      (step_point s.head_pos s.snake_head_dir).x
      (step_point s.head_pos s.snake_head_dir).y = Cell.cell_body) :
    main_tick rng fuel s =
      Res.exit 0 (set_high_score (print "You lost!\n"
        { s with cells := setCell s.cells s.head_pos.x s.head_pos.y Cell.cell_body,
                 head_pos := step_point s.head_pos s.snake_head_dir })) := by
  have hnx := step_point_inGrid s.head_pos s.snake_head_dir hh
  unfold main_tick
  simp only [cell_at_set, hh, if_true, Res.bind, cell_at_get, hnx, hn, quit]
theorem spawn_egg_miss (rng : Nat → Nat) : ∀ (fuel : Nat) (t : State),
    (∀ j, j < fuel → t.cells (draw rng (t.rand_calls + 2 * j)).x
      (draw rng (t.rand_calls + 2 * j)).y ≠ Cell.cell_empty) →
    spawn_egg rng fuel t = Res.spin := by
  intro fuel
  induction fuel with
  | zero => intro t _; rfl
  | succ f ih =>
    intro t h
    have hg := draw_inGrid rng t.rand_calls
    have h0 := h 0 (by omega)
    simp only [Nat.mul_zero, Nat.add_zero] at h0
    simp only [draw] at hg h0
    have e : ∀ j, t.rand_calls + 2 + 2 * j = t.rand_calls + 2 * (j + 1) := by
      intro j; omega
    simp only [spawn_egg, cell_at_get, hg, if_true, Res.bind, h0, if_false]
    apply ih
    intro j hj
    simp only [e]
    exact h (j + 1) (by omega)

theorem Consistent.demoted_empty_iff {s : State} (hc : Consistent s) (x y : Int) :
    s.cells x y = Cell.cell_empty ↔
      setCell s.cells s.head_pos.x s.head_pos.y Cell.cell_body x y = Cell.cell_empty := by
  simp only [setCell]
  split
  · rename_i h
    rw [h.1, h.2, hc.head_cell]
    simp
  · rfl

theorem main_tick_spin (rng : Nat → Nat) (fuel : Nat) (s : State) (hc : Consistent s)
    (hn : s.cells (step_point s.head_pos s.snake_head_dir).x
      (step_point s.head_pos s.snake_head_dir).y = Cell.cell_egg)
    (hmiss : ∀ j, j < fuel → s.cells (draw rng (s.rand_calls + 2 * j)).x
      (draw rng (s.rand_calls + 2 * j)).y ≠ Cell.cell_empty) :
    main_tick rng fuel s = Res.spin := by
  have hh := hc.head_inGrid
  have hnx := hc.next_inGrid s.snake_head_dir
  have hne := step_point_ne s.head_pos s.snake_head_dir
  have hs := spawn_egg_miss rng fuel
    { s with cells := setCell s.cells s.head_pos.x s.head_pos.y Cell.cell_body,
             head_pos := step_point s.head_pos s.snake_head_dir,
             score := s.score + 1 }
    (by intro j hj; exact fun h => hmiss j hj ((hc.demoted_empty_iff _ _).mpr h))
  unfold main_tick
  simp only [cell_at_set, hh, if_true, Res.bind, cell_at_get, hnx, setCell, hne, if_false, hn]
  rw [if_neg (by decide)]
  simp only [hs]

theorem Consistent.next_cell {s : State} (hc : Consistent s) :
    s.cells (step_point s.head_pos s.snake_head_dir).x
        (step_point s.head_pos s.snake_head_dir).y = Cell.cell_empty ∨
      s.cells (step_point s.head_pos s.snake_head_dir).x
        (step_point s.head_pos s.snake_head_dir).y = Cell.cell_egg ∨
      s.cells (step_point s.head_pos s.snake_head_dir).x
        (step_point s.head_pos s.snake_head_dir).y = Cell.cell_body := by
  by_cases hm : step_point s.head_pos s.snake_head_dir ∈ contents s
  · right; right
    apply hc.body_cell _ hm
    intro h
    exact step_point_ne s.head_pos s.snake_head_dir ⟨by rw [h], by rw [h]⟩
  · rcases hc.rest _ _ (hc.next_inGrid s.snake_head_dir) hm with h | h
    · exact Or.inl h
    · exact Or.inr (Or.inl h)

theorem main_tick_ok_inv (rng : Nat → Nat) (fuel : Nat) (s s' : State) (hc : Consistent s)
    (h : main_tick rng fuel s = Res.ok s') :
    (s.cells (step_point s.head_pos s.snake_head_dir).x
        (step_point s.head_pos s.snake_head_dir).y = Cell.cell_empty ∧ s' = movedState s) ∨
    (s.cells (step_point s.head_pos s.snake_head_dir).x
        (step_point s.head_pos s.snake_head_dir).y = Cell.cell_egg ∧
      ∃ k, k < fuel ∧ s.cells (draw rng (s.rand_calls + 2 * k)).x
        (draw rng (s.rand_calls + 2 * k)).y = Cell.cell_empty ∧ s' = ateState rng k s) := by
  rcases hc.next_cell with hn | hn | hn
  · left
    rw [main_tick_moved rng fuel s hc hn] at h
    exact ⟨hn, (Res.ok.inj h).symm⟩
  · right
    refine ⟨hn, ?_⟩
    by_cases hex : ∃ k, k < fuel ∧ s.cells (draw rng (s.rand_calls + 2 * k)).x
        (draw rng (s.rand_calls + 2 * k)).y = Cell.cell_empty
    · classical
      have hk := Nat.find_spec hex
      have hmin : ∀ j, j < Nat.find hex → s.cells (draw rng (s.rand_calls + 2 * j)).x
          (draw rng (s.rand_calls + 2 * j)).y ≠ Cell.cell_empty := by
        intro j hj hc'
        exact Nat.find_min hex hj ⟨by omega, hc'⟩
      rw [main_tick_ate rng fuel _ s hc hn hk.1 hmin hk.2] at h
      exact ⟨_, hk.1, hk.2, (Res.ok.inj h).symm⟩
    · rw [main_tick_spin rng fuel s hc hn
        (fun j hj hc' => hex ⟨j, hj, hc'⟩)] at h
      cases h
  · have hne := step_point_ne s.head_pos s.snake_head_dir
    rw [main_tick_lost rng fuel s hc.head_inGrid (by simp only [setCell, hne, if_false]; exact hn)] at h
    cases h

/-! ## The tick preserves consistency -/

theorem contents_movedState (s : State) (hc : Consistent s) :
    contents s = seg s 0 :: (contents s).tail ∧
      contents (movedState s) =
        (contents s).tail ++ [step_point s.head_pos s.snake_head_dir] := by
  have hb := hc.begin_ok
  have hp := hc.size_pos
  have hl := hc.size_le
  have h1 := contents_snake_del s hb hp
  have h2 := contents_snake_add (step_point s.head_pos s.snake_head_dir).x
    (step_point s.head_pos s.snake_head_dir).y
    { s with cells := setCell s.cells (seg s 0).x (seg s 0).y Cell.cell_empty,
             snake_size := s.snake_size - 1,
             snake_begin := (s.snake_begin + 1) % 400 }
    (by simp only [inSnake, SNAKE_CAP, ROWS, COLS]; omega) (by simp only; omega)
    (by simp only; omega)
  refine ⟨?_, ?_⟩
  · conv_lhs => rw [h1]
    rw [h1]; rfl
  · have e : (contents s).tail = contents
        { s with cells := setCell s.cells (seg s 0).x (seg s 0).y Cell.cell_empty,
                 snake_size := s.snake_size - 1,
                 snake_begin := (s.snake_begin + 1) % 400 } := by
      rw [h1]; rfl
    rw [e, ← h2]
    exact contents_congr _ _ rfl rfl rfl

theorem contents_ateState (rng : Nat → Nat) (k : Nat) (s : State) (hb : inSnake s.snake_begin)
    (h0 : 0 ≤ s.snake_size) (h1 : s.snake_size < SNAKE_CAP) :
    contents (ateState rng k s) = contents s ++ [step_point s.head_pos s.snake_head_dir] := by
  have h2 := contents_snake_add (step_point s.head_pos s.snake_head_dir).x
    (step_point s.head_pos s.snake_head_dir).y s hb h0 h1
  rw [← h2]
  exact contents_congr _ _ rfl rfl rfl

theorem cells_movedState (s : State) (x y : Int) :
    (movedState s).cells x y =
      if x = (step_point s.head_pos s.snake_head_dir).x ∧
          y = (step_point s.head_pos s.snake_head_dir).y then Cell.cell_head
      else if x = (seg s 0).x ∧ y = (seg s 0).y then Cell.cell_empty
      else if x = s.head_pos.x ∧ y = s.head_pos.y then Cell.cell_body
      else s.cells x y := by
  simp only [movedState, setCell]
  split_ifs <;> rfl

theorem cells_ateState (rng : Nat → Nat) (k : Nat) (s : State) (x y : Int) :
    (ateState rng k s).cells x y =
      if x = (step_point s.head_pos s.snake_head_dir).x ∧
          y = (step_point s.head_pos s.snake_head_dir).y then Cell.cell_head
      else if x = (draw rng (s.rand_calls + 2 * k)).x ∧
          y = (draw rng (s.rand_calls + 2 * k)).y then Cell.cell_egg
      else if x = s.head_pos.x ∧ y = s.head_pos.y then Cell.cell_body
      else s.cells x y := by
  simp only [ateState, setCell]
  split_ifs <;> rfl
theorem Consistent.of_parts (s' : State) (L : List Point) (n : Point)
    (hb : inSnake s'.snake_begin) (hpos : 0 < s'.snake_size)
    (hle : s'.snake_size ≤ SNAKE_CAP)
    (hcont : contents s' = L ++ [n]) (hhead : s'.head_pos = n)
    (hnd : L.Nodup) (hnL : n ∉ L) (hg : ∀ p ∈ L, inGrid p.x p.y) (hgn : inGrid n.x n.y)
    (hcn : s'.cells n.x n.y = Cell.cell_head)
    (hbody : ∀ p ∈ L, s'.cells p.x p.y = Cell.cell_body)
    (hrest : ∀ x y, inGrid x y → (⟨x, y⟩ : Point) ∉ L → ¬ (x = n.x ∧ y = n.y) →
      s'.cells x y = Cell.cell_empty ∨ s'.cells x y = Cell.cell_egg)
    (hegg : ∀ x y a b, inGrid x y → inGrid a b →
      s'.cells x y = Cell.cell_egg → s'.cells a b = Cell.cell_egg → x = a ∧ y = b) :
    Consistent s' := by
  refine ⟨hb, hpos, hle, ?_, ?_, ?_, ?_, ?_, ?_, hegg⟩
  · rw [hcont]
    exact List.Nodup.append hnd (List.nodup_singleton n)
      (by
        intro a h1 h2
        rw [List.mem_singleton] at h2
        subst h2
        exact hnL h1)
  · intro p hp
    rw [hcont, List.mem_append, List.mem_singleton] at hp
    rcases hp with hp | hp
    · exact hg p hp
    · rw [hp]; exact hgn
  · rw [hcont, hhead]
    exact List.getLast?_concat L
  · rw [hhead]; exact hcn
  · intro p hp hne
    rw [hcont, List.mem_append, List.mem_singleton] at hp
    rcases hp with hp | hp
    · exact hbody p hp
    · exact absurd (hp.trans hhead.symm) hne
  · intro x y hxy hm
    rw [hcont, List.mem_append, List.mem_singleton, not_or] at hm
    apply hrest x y hxy hm.1
    intro h
    apply hm.2
    ext
    · exact h.1
    · exact h.2

theorem Consistent.movedState {s : State} (hc : Consistent s)
    (hn : s.cells (step_point s.head_pos s.snake_head_dir).x
      (step_point s.head_pos s.snake_head_dir).y = Cell.cell_empty) :
    Consistent (movedState s) := by
  obtain ⟨hct, hcm⟩ := contents_movedState s hc
  have hb := hc.begin_ok
  have hp := hc.size_pos
  have hl := hc.size_le
  have hnd := hc.nodup
  rw [hct, List.nodup_cons] at hnd
  have hnm := hc.not_mem_of_cell _ (Or.inl hn)
  have hsub : ∀ p, p ∈ (contents s).tail → p ∈ contents s := by
    intro p hp'
    rw [hct]; exact List.mem_cons_of_mem _ hp'
  have hpt : ∀ p : Point, p ∈ (contents s).tail → ¬ (p.x = (seg s 0).x ∧ p.y = (seg s 0).y) := by
    intro p hp' h
    have : p = seg s 0 := by ext; exact h.1; exact h.2
    rw [this] at hp'
    exact hnd.1 hp'
  have hpn : ∀ p : Point, p ∈ contents s →
      ¬ (p.x = (step_point s.head_pos s.snake_head_dir).x ∧
        p.y = (step_point s.head_pos s.snake_head_dir).y) := by
    intro p hp' h
    have : p = step_point s.head_pos s.snake_head_dir := by ext; exact h.1; exact h.2
    rw [this] at hp'
    exact hnm hp'
  apply Consistent.of_parts (Snek.movedState s) (contents s).tail
    (step_point s.head_pos s.snake_head_dir)
  · simp only [Snek.movedState, inSnake, SNAKE_CAP, ROWS, COLS]
    simp only [inSnake, SNAKE_CAP, ROWS, COLS] at hb
    omega
  · simp only [Snek.movedState]; omega
  · simp only [Snek.movedState]; omega
  · exact hcm
  · rfl
  · exact hnd.2
  · exact fun h => hnm (hsub _ h)
  · exact fun p hp' => hc.in_grid p (hsub p hp')
  · exact hc.next_inGrid _
  · rw [cells_movedState]; simp
  · intro p hp'
    rw [cells_movedState, if_neg (hpn p (hsub p hp')), if_neg (hpt p hp')]
    split
    · rfl
    · rename_i h
      apply hc.body_cell p (hsub p hp')
      intro hh
      exact h ⟨by rw [hh], by rw [hh]⟩
  · intro x y hxy hm hne
    rw [cells_movedState, if_neg hne]
    split
    · exact Or.inl rfl
    · rename_i ht
      have hmc : (⟨x, y⟩ : Point) ∉ contents s := by
        rw [hct, List.mem_cons, not_or]
        refine ⟨?_, hm⟩
        intro h
        exact ht ⟨by rw [← h], by rw [← h]⟩
      have hh : ¬ (x = s.head_pos.x ∧ y = s.head_pos.y) := by
        intro h
        apply hmc
        have : (⟨x, y⟩ : Point) = s.head_pos := by ext; exact h.1; exact h.2
        rw [this]; exact hc.head_mem
      rw [if_neg hh]
      exact hc.rest x y hxy hmc
  · intro x y a b h1 h2 h3 h4
    have key : ∀ u v, (Snek.movedState s).cells u v = Cell.cell_egg →
        s.cells u v = Cell.cell_egg := by
      intro u v h
      rw [cells_movedState] at h
      split_ifs at h
      exact h
    exact hc.one_egg x y a b h1 h2 (key _ _ h3) (key _ _ h4)
theorem Consistent.egg_unique {s : State} (hc : Consistent s)
    (hn : s.cells (step_point s.head_pos s.snake_head_dir).x
      (step_point s.head_pos s.snake_head_dir).y = Cell.cell_egg)
    (x y : Int) (hxy : inGrid x y) (h : s.cells x y = Cell.cell_egg) :
    x = (step_point s.head_pos s.snake_head_dir).x ∧
      y = (step_point s.head_pos s.snake_head_dir).y :=
  hc.one_egg x y _ _ hxy (hc.next_inGrid _) h hn

theorem cells_ateState_egg_iff (rng : Nat → Nat) (k : Nat) {s : State} (hc : Consistent s)
    (hn : s.cells (step_point s.head_pos s.snake_head_dir).x
      (step_point s.head_pos s.snake_head_dir).y = Cell.cell_egg)
    (hhit : s.cells (draw rng (s.rand_calls + 2 * k)).x
      (draw rng (s.rand_calls + 2 * k)).y = Cell.cell_empty)
    (x y : Int) (hxy : inGrid x y) :
    (ateState rng k s).cells x y = Cell.cell_egg ↔
      x = (draw rng (s.rand_calls + 2 * k)).x ∧ y = (draw rng (s.rand_calls + 2 * k)).y := by
  rw [cells_ateState]
  constructor
  · intro h
    split_ifs at h with h1 h2 h3
    · exact h2
    · exact absurd (hc.egg_unique hn x y hxy h) h1
  · intro h
    have hne : ¬ (x = (step_point s.head_pos s.snake_head_dir).x ∧
        y = (step_point s.head_pos s.snake_head_dir).y) := by
      intro h'
      rw [← h.1, ← h.2, h'.1, h'.2, hn] at hhit
      cases hhit
    rw [if_neg hne, if_pos h]

theorem Consistent.ateState {s : State} (hc : Consistent s) (rng : Nat → Nat) (k : Nat)
    (hn : s.cells (step_point s.head_pos s.snake_head_dir).x
      (step_point s.head_pos s.snake_head_dir).y = Cell.cell_egg)
    (hhit : s.cells (draw rng (s.rand_calls + 2 * k)).x
      (draw rng (s.rand_calls + 2 * k)).y = Cell.cell_empty) :
    Consistent (ateState rng k s) := by
  have hb := hc.begin_ok
  have hp := hc.size_pos
  have hnm := hc.not_mem_of_cell _ (Or.inr hn)
  have hem := hc.not_mem_of_cell _ (Or.inl hhit)
  have hlt := hc.size_lt_of_free _ (hc.next_inGrid s.snake_head_dir) hnm
  have hcm := contents_ateState rng k s hb (by omega) hlt
  have hpn : ∀ p : Point, p ∈ contents s →
      ¬ (p.x = (step_point s.head_pos s.snake_head_dir).x ∧
        p.y = (step_point s.head_pos s.snake_head_dir).y) := by
    intro p hp' h
    have : p = step_point s.head_pos s.snake_head_dir := by ext; exact h.1; exact h.2
    rw [this] at hp'
    exact hnm hp'
  have hpe : ∀ p : Point, p ∈ contents s →
      ¬ (p.x = (draw rng (s.rand_calls + 2 * k)).x ∧
        p.y = (draw rng (s.rand_calls + 2 * k)).y) := by
    intro p hp' h
    have : p = draw rng (s.rand_calls + 2 * k) := by ext; exact h.1; exact h.2
    rw [this] at hp'
    exact hem hp'
  apply Consistent.of_parts (Snek.ateState rng k s) (contents s)
    (step_point s.head_pos s.snake_head_dir)
  · exact hb
  · simp only [Snek.ateState]; omega
  · simp only [Snek.ateState]; omega
  · exact hcm
  · rfl
  · exact hc.nodup
  · exact hnm
  · exact hc.in_grid
  · exact hc.next_inGrid _
  · rw [cells_ateState]; simp
  · intro p hp'
    rw [cells_ateState, if_neg (hpn p hp'), if_neg (hpe p hp')]
    split
    · rfl
    · rename_i h
      apply hc.body_cell p hp'
      intro hh
      exact h ⟨by rw [hh], by rw [hh]⟩
  · intro x y hxy hm hne
    rw [cells_ateState, if_neg hne]
    split
    · exact Or.inr rfl
    · have hh : ¬ (x = s.head_pos.x ∧ y = s.head_pos.y) := by
        intro h
        apply hm
        have : (⟨x, y⟩ : Point) = s.head_pos := by ext; exact h.1; exact h.2
        rw [this]; exact hc.head_mem
      rw [if_neg hh]
      exact hc.rest x y hxy hm
  · intro x y a b h1 h2 h3 h4
    have e1 := (cells_ateState_egg_iff rng k hc hn hhit x y h1).mp h3
    have e2 := (cells_ateState_egg_iff rng k hc hn hhit a b h2).mp h4
    exact ⟨e1.1.trans e2.1.symm, e1.2.trans e2.2.symm⟩

theorem main_tick_consistent (rng : Nat → Nat) (fuel : Nat) (s s' : State)
    (hc : Consistent s) (h : main_tick rng fuel s = Res.ok s') : Consistent s' := by
  rcases main_tick_ok_inv rng fuel s s' hc h with ⟨hn, rfl⟩ | ⟨hn, k, _, hhit, rfl⟩
  · exact hc.movedState hn
  · exact hc.ateState rng k hn hhit

/-! ## The main loop preserves consistency -/

theorem Consistent.congr {s t : State} (hc : Consistent s) (h1 : t.cells = s.cells)
    (h2 : t.snake = s.snake) (h3 : t.snake_begin = s.snake_begin)
    (h4 : t.snake_size = s.snake_size) (h5 : t.head_pos = s.head_pos) : Consistent t := by
  have hct := contents_congr s t h2 h3 h4
  obtain ⟨a, b, c, d, e, f, g, h, i, j⟩ := hc
  refine ⟨?_, ?_, ?_, ?_, ?_, ?_, ?_, ?_, ?_, ?_⟩
  · rw [h3]; exact a
  · rw [h4]; exact b
  · rw [h4]; exact c
  · rw [hct]; exact d
  · rw [hct]; exact e
  · rw [hct, h5]; exact f
  · rw [h1, h5]; exact g
  · rw [hct, h1, h5]; exact h
  · rw [hct, h1]; exact i
  · rw [h1]; exact j

theorem main_key_frame (c : Char) (s s1 : State) (h : main_key c s = Res.ok s1) :
    s1.cells = s.cells ∧ s1.snake = s.snake ∧ s1.snake_begin = s.snake_begin ∧
      s1.snake_size = s.snake_size ∧ s1.head_pos = s.head_pos ∧ s1.score = s.score ∧
      s1.high_score = s.high_score ∧ s1.hs_file = s.hs_file ∧
      s1.rand_calls = s.rand_calls ∧ s1.out = s.out := by
  unfold main_key at h
  split_ifs at h <;> first
    | (cases h; simp)
    | (simp only [quit] at h; cases h)

theorem main_input_frame (inp : Input) (s s1 : State) (h : main_input inp s = Res.ok s1) :
    s1.cells = s.cells ∧ s1.snake = s.snake ∧ s1.snake_begin = s.snake_begin ∧
      s1.snake_size = s.snake_size ∧ s1.head_pos = s.head_pos ∧ s1.score = s.score ∧
      s1.high_score = s.high_score ∧ s1.hs_file = s.hs_file ∧
      s1.rand_calls = s.rand_calls ∧ s1.out = s.out := by
  cases inp with
  | key c => exact main_key_frame c s s1 h
  | nothing =>
    simp only [main_input, Res.ok.injEq] at h
    subst h; simp
  | failure => simp [main_input, quit] at h

theorem main_input_consistent (inp : Input) (s s1 : State) (hc : Consistent s)
    (h : main_input inp s = Res.ok s1) : Consistent s1 := by
  obtain ⟨h1, h2, h3, h4, h5, _⟩ := main_input_frame inp s s1 h
  exact hc.congr h1 h2 h3 h4 h5

theorem main_iter_consistent (rng : Nat → Nat) (fuel : Nat) (inp : Input) (s s' : State)
    (hc : Consistent s) (h : main_iter rng fuel inp s = Res.ok s') : Consistent s' := by
  unfold main_iter at h
  cases h1 : main_input inp s with
  | ok s1 =>
    rw [h1] at h
    simp only [Res.bind] at h
    have hc1 := main_input_consistent inp s s1 hc h1
    split at h
    · exact main_tick_consistent rng fuel s1 s' hc1 h
    · cases h; exact hc1
  | exit c st => rw [h1] at h; simp [Res.bind] at h
  | fault => rw [h1] at h; simp [Res.bind] at h
  | spin => rw [h1] at h; simp [Res.bind] at h

theorem main_loop_consistent (rng : Nat → Nat) (fuel : Nat) (inputs : List Input) :
    ∀ s s', Consistent s → main_loop rng fuel inputs s = Res.ok s' → Consistent s' := by
  induction inputs with
  | nil =>
    intro s s' hc h
    simp only [main_loop, Res.ok.injEq] at h
    subst h; exact hc
  | cons inp rest ih =>
    intro s s' hc h
    simp only [main_loop] at h
    cases h1 : main_iter rng fuel inp s with
    | ok s1 =>
      rw [h1] at h
      exact ih s1 s' (main_iter_consistent rng fuel inp s s1 hc h1) h
    | exit c st => rw [h1] at h; simp [Res.bind] at h
    | fault => rw [h1] at h; simp [Res.bind] at h
    | spin => rw [h1] at h; simp [Res.bind] at h

theorem Consistent.head_iff {s : State} (hc : Consistent s) (x y : Int) (hxy : inGrid x y) :
    s.cells x y = Cell.cell_head ↔ x = s.head_pos.x ∧ y = s.head_pos.y := by
  constructor
  · intro h
    by_contra hne
    by_cases hm : (⟨x, y⟩ : Point) ∈ contents s
    · have := hc.body_cell _ hm (by
        intro h'
        exact hne ⟨by rw [← h'], by rw [← h']⟩)
      simp only at this
      rw [this] at h; cases h
    · rcases hc.rest x y hxy hm with h' | h' <;> rw [h'] at h <;> cases h
  · rintro ⟨rfl, rfl⟩
    exact hc.head_cell

/-! ## Two concrete states -/

theorem contents_demo (d : Dir) : contents (demo d) = [⟨10, 10⟩] := by
  rfl

theorem demo_consistent (d : Dir) : Consistent (demo d) := by
  refine ⟨?_, ?_, ?_, ?_, ?_, ?_, ?_, ?_, ?_, ?_⟩
  · simp [demo, start, inSnake, SNAKE_CAP, ROWS, COLS]
  · simp [demo]
  · simp [demo, SNAKE_CAP, ROWS, COLS]
  · rw [contents_demo]; simp
  · intro p hp
    rw [contents_demo, List.mem_singleton] at hp
    subst hp; decide
  · rw [contents_demo]; rfl
  · simp [demo, start, setCell]
  · intro p hp hne
    rw [contents_demo, List.mem_singleton] at hp
    exact absurd hp hne
  · intro x y _ hm
    rw [contents_demo, List.mem_singleton] at hm
    simp only [demo, start, setCell]
    split_ifs with h1 h2
    · exact Or.inr rfl
    · exact absurd (by rw [h2.1, h2.2]) hm
    · exact Or.inl rfl
  · intro x y a b _ _ h1 h2
    simp only [demo, start, setCell] at h1 h2
    split_ifs at h1 h2 with h3 h4
    exact ⟨h3.1.trans h4.1.symm, h3.2.trans h4.2.symm⟩
theorem seg_fullGrid (i : Nat) :
    seg fullGrid (i : Int) =
      ⟨((i : Int) + 1) / 20,
        if ((i : Int) + 1) / 20 % 2 = 0 then ((i : Int) + 1) % 20
        else 19 - ((i : Int) + 1) % 20⟩ ∨ 399 ≤ i := by
  by_cases h : 399 ≤ i
  · exact Or.inr h
  · left
    have e : Int.tmod (fullGrid.snake_begin + (i : Int)) SNAKE_CAP = (i : Int) := by
      have : fullGrid.snake_begin = 0 := rfl
      rw [this, tmod_cap _ (by omega)]
      omega
    simp only [seg, e]
    rfl

theorem mem_contents_fullGrid (p : Point) :
    p ∈ contents fullGrid ↔ ∃ i : Nat, i < 399 ∧ seg fullGrid (i : Int) = p := by
  have : fullGrid.snake_size.toNat = 399 := rfl
  simp only [contents, this, List.mem_map, List.mem_range]

theorem fullGrid_consistent : Consistent fullGrid := by
  refine ⟨?_, ?_, ?_, ?_, ?_, ?_, ?_, ?_, ?_, ?_⟩
  · exact ⟨by decide, by decide⟩
  · decide
  · decide
  · unfold contents
    apply List.Nodup.map_on _ (List.nodup_range _)
    intro a ha b hb h
    have ea : fullGrid.snake_size.toNat = 399 := rfl
    rw [ea, List.mem_range] at ha hb
    rcases seg_fullGrid a with h1 | h1 <;> [skip; omega]
    rcases seg_fullGrid b with h2 | h2 <;> [skip; omega]
    rw [h1, h2, Point.mk.injEq] at h
    obtain ⟨h3, h4⟩ := h
    split_ifs at h4 <;> omega
  · intro p hp
    obtain ⟨i, hi, rfl⟩ := (mem_contents_fullGrid p).mp hp
    rcases seg_fullGrid i with h1 | h1 <;> [skip; omega]
    rw [h1]
    simp only [inGrid, ROWS, COLS]
    split_ifs <;> omega
  · have ea : fullGrid.snake_size.toNat = 398 + 1 := rfl
    unfold contents
    rw [ea, List.range_succ, List.map_append]
    exact List.getLast?_concat _
  · rfl
  · intro p hp hne
    obtain ⟨i, hi, rfl⟩ := (mem_contents_fullGrid p).mp hp
    rcases seg_fullGrid i with h1 | h1 <;> [skip; omega]
    rw [h1] at hne ⊢
    have hh : fullGrid.head_pos = ⟨19, 0⟩ := rfl
    rw [hh, Ne, Point.mk.injEq] at hne
    simp only [fullGrid]
    rw [if_neg (by split_ifs <;> omega), if_neg (by split_ifs at hne ⊢ <;> omega)]
  · intro x y hxy hm
    right
    simp only [fullGrid]
    rw [if_pos]
    by_contra h0
    apply hm
    rw [mem_contents_fullGrid]
    simp only [inGrid, ROWS, COLS] at hxy
    refine ⟨(20 * x + (if x % 2 = 0 then y else 19 - y) - 1).toNat, ?_, ?_⟩
    · split_ifs <;> omega
    · rcases seg_fullGrid (20 * x + (if x % 2 = 0 then y else 19 - y) - 1).toNat
        with h1 | h1
      · rw [h1, Point.mk.injEq]
        have e : (((20 * x + (if x % 2 = 0 then y else 19 - y) - 1).toNat : Nat) : Int) =
            20 * x + (if x % 2 = 0 then y else 19 - y) - 1 := by
          split_ifs <;> omega
        rw [e]
        split_ifs <;> constructor <;> omega
      · split_ifs at h1 <;> omega
  · intro x y a b _ _ h1 h2
    simp only [fullGrid] at h1 h2
    split_ifs at h1 h2 with h3 h4
    exact ⟨h3.1.trans h4.1.symm, h3.2.trans h4.2.symm⟩

/-! ## Lemmas on the non-growing move -/

theorem Consistent.cell_ne_empty {s : State} (hc : Consistent s) (p : Point)
    (hp : p ∈ contents s) : s.cells p.x p.y ≠ Cell.cell_empty := by
  intro h
  exact hc.not_mem_of_cell p (Or.inl h) hp

theorem Consistent.tail_eq_head_iff {s : State} (hc : Consistent s) :
    seg s 0 = s.head_pos ↔ s.snake_size = 1 := by
  have hct := contents_snake_del s hc.begin_ok hc.size_pos
  have hl := hc.head_last
  have hnd := hc.nodup
  have hlen := contents_length s
  have hp := hc.size_pos
  generalize contents s = L at hct hl hnd hlen
  cases hrest : contents
      { s with cells := setCell s.cells (seg s 0).x (seg s 0).y Cell.cell_empty,
               snake_size := s.snake_size - 1,
               snake_begin := (s.snake_begin + 1) % 400 } with
  | nil =>
    rw [hrest] at hct
    subst hct
    simp only [List.getLast?_singleton, Option.some.injEq] at hl
    simp only [List.length_singleton] at hlen
    exact ⟨fun _ => by omega, fun _ => hl⟩
  | cons a l =>
    rw [hrest] at hct
    subst hct
    rw [List.getLast?_cons_cons] at hl
    have hm := List.mem_of_getLast?_eq_some hl
    rw [List.nodup_cons] at hnd
    simp only [List.length_cons] at hlen
    constructor
    · intro h
      rw [h] at hnd
      exact absurd hm hnd.1
    · intro h
      omega

theorem occupancy_movedState (s : State) (hc : Consistent s)
    (hn : s.cells (step_point s.head_pos s.snake_head_dir).x
      (step_point s.head_pos s.snake_head_dir).y = Cell.cell_empty) :
    occupancy (movedState s).cells = occupancy s.cells := by
  have hnm := hc.not_mem_of_cell _ (Or.inl hn)
  have hne : seg s 0 ≠ step_point s.head_pos s.snake_head_dir := by
    intro h
    rw [← h] at hnm
    exact hnm hc.tail_mem
  have hne' : ¬ ((seg s 0).x = (step_point s.head_pos s.snake_head_dir).x ∧
      (seg s 0).y = (step_point s.head_pos s.snake_head_dir).y) := by
    intro h
    exact hne (by ext; exact h.1; exact h.2)
  apply occupancy_swap s.cells (movedState s).cells (seg s 0)
    (step_point s.head_pos s.snake_head_dir) (hc.in_grid _ hc.tail_mem)
    (hc.next_inGrid _) hne (hc.cell_ne_empty _ hc.tail_mem)
  · rw [cells_movedState, if_neg hne']
    simp
  · exact hn
  · rw [cells_movedState]; simp
  · intro p hp1 hp2
    have h1 : ¬ (p.x = (step_point s.head_pos s.snake_head_dir).x ∧
        p.y = (step_point s.head_pos s.snake_head_dir).y) :=
      fun h => hp2 (by ext; exact h.1; exact h.2)
    have h2 : ¬ (p.x = (seg s 0).x ∧ p.y = (seg s 0).y) :=
      fun h => hp1 (by ext; exact h.1; exact h.2)
    rw [cells_movedState, if_neg h1, if_neg h2]
    split
    · rename_i h
      rw [h.1, h.2, hc.head_cell]
      simp
    · rfl

theorem emptyRun_preserves (rng : Nat → Nat) (fuel : Nat) (inputs : List Input) :
    ∀ s, Consistent s → EmptyRun rng fuel inputs s →
      ∃ s', main_loop rng fuel inputs s = Res.ok s' ∧ Consistent s' ∧
        s'.snake_size = s.snake_size ∧ s'.score = s.score ∧
        occupancy s'.cells = occupancy s.cells := by
  induction inputs with
  | nil =>
    intro s hc _
    exact ⟨s, rfl, hc, rfl, rfl, rfl⟩
  | cons inp rest ih =>
    intro s hc hr
    obtain ⟨s1, h1, h2⟩ := hr
    have hc1 := main_input_consistent inp s s1 hc h1
    obtain ⟨f1, _, _, f4, _, f6, _⟩ := main_input_frame inp s s1 h1
    by_cases hp : s1.pause_flag = true
    · rw [if_pos hp] at h2
      obtain ⟨s', e1, e2, e3, e4, e5⟩ := ih s1 hc1 h2
      refine ⟨s', ?_, e2, by rw [e3, f4], by rw [e4, f6], by rw [e5, f1]⟩
      simp only [main_loop, main_iter, h1, Res.bind, hp, Bool.not_true]
      exact e1
    · rw [if_neg hp] at h2
      obtain ⟨ha, h3⟩ := h2
      unfold ahead at ha
      have ht := main_tick_moved rng fuel s1 hc1 ha
      obtain ⟨s', e1, e2, e3, e4, e5⟩ := ih _ (hc1.movedState ha) (h3 _ ht)
      have hp' : s1.pause_flag = false := by simpa using hp
      refine ⟨s', ?_, e2, ?_, ?_, ?_⟩
      · simp only [main_loop, main_iter, h1, Res.bind, hp', Bool.not_false, if_true, ht]
        exact e1
      · rw [e3, ← f4]; simp only [movedState]; omega
      · rw [e4, ← f6]; rfl
      · rw [e5, occupancy_movedState s1 hc1 ha, f1]

/-! ## Lemmas on the cells written by the ring-buffer operations -/

theorem snake_add_cells (x y : Int) (s s' : State) (h : snake_add x y s = Res.ok s') :
    s'.cells = setCell s.cells x y Cell.cell_body := by
  unfold snake_add at h
  split at h
  · simp [quit] at h
  · unfold cell_at_set at h
    split at h
    · simp only [Res.bind] at h
      split at h
      · cases h; rfl
      · cases h
    · simp [Res.bind] at h

theorem snake_del_cells (s s' : State) (h : snake_del s = Res.ok s') :
    s'.cells = setCell s.cells (s.snake s.snake_begin).x (s.snake s.snake_begin).y
      Cell.cell_empty := by
  unfold snake_del at h
  split at h
  · simp [quit] at h
  · split at h
    · unfold cell_at_set at h
      simp only at h
      split at h
      · simp only [Res.bind] at h
        cases h; rfl
      · simp [Res.bind] at h
    · cases h

theorem run_ops_no_head (ops : List Op) : ∀ s s', run_ops ops s = Res.ok s' →
    (∀ a b, s.cells a b ≠ Cell.cell_head) → ∀ a b, s'.cells a b ≠ Cell.cell_head := by
  induction ops with
  | nil =>
    intro s s' h hs
    simp only [run_ops, Res.ok.injEq] at h
    subst h; exact hs
  | cons o ops ih =>
    intro s s' h hs
    cases o with
    | add x y =>
      simp only [run_ops] at h
      cases h1 : snake_add x y s with
      | ok s1 =>
        rw [h1] at h
        apply ih s1 s' h
        intro a b
        rw [snake_add_cells x y s s1 h1]
        simp only [setCell]
        split
        · simp
        · exact hs a b
      | exit c st => rw [h1] at h; simp [Res.bind] at h
      | fault => rw [h1] at h; simp [Res.bind] at h
      | spin => rw [h1] at h; simp [Res.bind] at h
    | del =>
      simp only [run_ops] at h
      cases h1 : snake_del s with
      | ok s1 =>
        rw [h1] at h
        apply ih s1 s' h
        intro a b
        rw [snake_del_cells s s1 h1]
        simp only [setCell]
        split
        · simp
        · exact hs a b
      | exit c st => rw [h1] at h; simp [Res.bind] at h
      | fault => rw [h1] at h; simp [Res.bind] at h
      | spin => rw [h1] at h; simp [Res.bind] at h

/-! ## Lemmas on `spawn_snake` -/

theorem stepN_eq (p : Point) (d : Dir) (k : Nat) (h : inGrid p.x p.y) :
    stepN p d k =
      match d with
      | Dir.up => ⟨(p.x - k) % 20, p.y⟩
      | Dir.down => ⟨(p.x + k) % 20, p.y⟩
      | Dir.left => ⟨p.x, (p.y - k) % 20⟩
      | Dir.right => ⟨p.x, (p.y + k) % 20⟩ := by
  induction k generalizing p with
  | zero =>
    simp only [inGrid, ROWS, COLS] at h
    cases p with
    | mk x y =>
      simp only at h
      cases d <;> simp only [stepN, Nat.cast_zero, Point.mk.injEq, and_true, true_and] <;> omega
  | succ k ih =>
    have h' := step_point_inGrid p d h
    simp only [stepN]
    rw [ih _ h']
    cases d <;> simp only [step_point_eq, Point.mk.injEq, Nat.cast_add, Nat.cast_one,
      and_true, true_and] <;> omega

theorem stepN_inGrid (p : Point) (d : Dir) (k : Nat) (h : inGrid p.x p.y) :
    inGrid (stepN p d k).x (stepN p d k).y := by
  induction k generalizing p with
  | zero => exact h
  | succ k ih => exact ih _ (step_point_inGrid p d h)

theorem stepN_ne (p : Point) (d : Dir) (i j : Nat) (h : inGrid p.x p.y) (hij : i < j)
    (hj : j < 20) : stepN p d i ≠ stepN p d j := by
  rw [stepN_eq p d i h, stepN_eq p d j h]
  simp only [inGrid, ROWS, COLS] at h
  cases d <;> simp only [ne_eq, Point.mk.injEq, not_and] <;> omega

theorem map_stepN_succ (p : Point) (d : Dir) (k : Nat) :
    (List.range (k + 1)).map (stepN p d) =
      p :: (List.range k).map (stepN (step_point p d) d) := by
  rw [List.range_succ_eq_map, List.map_cons, List.map_map]
  rfl

theorem spawn_snake_body_ok (k : Nat) : ∀ t : State, inSnake t.snake_begin →
    0 ≤ t.snake_size → t.snake_size + k ≤ SNAKE_CAP → inGrid t.head_pos.x t.head_pos.y →
    ∃ t', spawn_snake_body k t = Res.ok t' ∧
      contents t' = contents t ++ (List.range k).map (stepN t.head_pos t.snake_head_dir) ∧
      t'.head_pos = stepN t.head_pos t.snake_head_dir k ∧
      t'.snake_head_dir = t.snake_head_dir ∧ t'.snake_begin = t.snake_begin ∧
      t'.snake_size = t.snake_size + k ∧
      (∀ a b, t'.cells a b =
        if (⟨a, b⟩ : Point) ∈ (List.range k).map (stepN t.head_pos t.snake_head_dir)
        then Cell.cell_body else t.cells a b) ∧
      SameEnv t t' := by
  induction k with
  | zero =>
    intro t _ _ _ _
    exact ⟨t, rfl, by simp, rfl, rfl, rfl, by simp, by simp, ⟨rfl, rfl, rfl, rfl, rfl, rfl⟩⟩
  | succ k ih =>
    intro t hb h0 hle hg
    have hlt : t.snake_size < SNAKE_CAP := by push_cast at hle; omega
    have hok := snake_add_ok t.head_pos.x t.head_pos.y t hb h0 hlt hg
    have hct := contents_snake_add t.head_pos.x t.head_pos.y t hb h0 hlt
    obtain ⟨t', e1, e2, e3, e4, e5, e6, e7, e8⟩ := ih
      { t with cells := setCell t.cells t.head_pos.x t.head_pos.y Cell.cell_body,
               snake := setSlot t.snake ((t.snake_begin + t.snake_size) % 400)
                 ⟨t.head_pos.x, t.head_pos.y⟩,
               snake_size := t.snake_size + 1,
               head_pos := step_point t.head_pos t.snake_head_dir }
      hb (by simp only; omega) (by simp only; push_cast at hle; omega)
      (step_point_inGrid _ _ hg)
    refine ⟨t', ?_, ?_, e3, e4, e5, ?_, ?_, e8⟩
    · simp only [spawn_snake_body, hok, Res.bind]
      exact e1
    · rw [e2, map_stepN_succ]
      have : contents
          { t with cells := setCell t.cells t.head_pos.x t.head_pos.y Cell.cell_body,
                   snake := setSlot t.snake ((t.snake_begin + t.snake_size) % 400)
                     ⟨t.head_pos.x, t.head_pos.y⟩,
                   snake_size := t.snake_size + 1,
                   head_pos := step_point t.head_pos t.snake_head_dir } =
          contents t ++ [t.head_pos] := by
        rw [← hct]
        exact contents_congr _ _ rfl rfl rfl
      rw [this]
      simp
    · rw [e6]; push_cast; omega
    · intro a b
      rw [e7 a b, map_stepN_succ]
      simp only [List.mem_cons, setCell]
      by_cases hm : (⟨a, b⟩ : Point) ∈
          List.map (stepN (step_point t.head_pos t.snake_head_dir) t.snake_head_dir)
            (List.range k)
      · simp [hm]
      · simp only [hm, if_false, or_false]
        by_cases hh : a = t.head_pos.x ∧ b = t.head_pos.y
        · have : (⟨a, b⟩ : Point) = t.head_pos := by ext; exact hh.1; exact hh.2
          simp [hh, this]
        · have : (⟨a, b⟩ : Point) ≠ t.head_pos := by
            intro h
            exact hh ⟨by rw [← h], by rw [← h]⟩
          simp [hh, this]
theorem spawn_snake_spec (x y : Int) (d : Dir) (n : Int) (s : State)
    (hb : inSnake s.snake_begin) (hsz : s.snake_size = 0)
    (hempty : ∀ a b, s.cells a b = Cell.cell_empty) (hxy : inGrid x y)
    (h1 : 1 ≤ n) (h20 : n ≤ 20) :
    ∃ s', spawn_snake x y d n s = Res.ok s' ∧ s'.snake_size = n ∧
      contents s' = (List.range n.toNat).map (stepN ⟨x, y⟩ d) ∧
      s'.head_pos = stepN ⟨x, y⟩ d (n.toNat - 1) ∧ s'.snake_head_dir = d ∧
      s'.snake_begin = s.snake_begin ∧
      (∀ a b, s'.cells a b =
        if (⟨a, b⟩ : Point) = s'.head_pos then Cell.cell_head
        else if (⟨a, b⟩ : Point) ∈ contents s' then Cell.cell_body
        else Cell.cell_empty) ∧
      SameEnv s s' ∧ Consistent s' := by
  obtain ⟨k, hk⟩ : ∃ k : Nat, n = (k : Int) + 1 := ⟨(n - 1).toNat, by omega⟩
  subst hk
  have ek : ((k : Int) + 1 - 1).toNat = k := by omega
  have ek1 : ((k : Int) + 1).toNat = k + 1 := by omega
  have hk20 : k < 20 := by omega
  obtain ⟨t, e1, e2, e3, e4, e5, e6, e7, e8⟩ := spawn_snake_body_ok k
    { s with head_pos := ⟨x, y⟩, snake_head_dir := d } hb (by simp only; omega)
    (by simp only [SNAKE_CAP, ROWS, COLS]; omega) hxy
  have hc0 : contents { s with head_pos := ⟨x, y⟩, snake_head_dir := d } = [] := by
    simp [contents, hsz]
  rw [hc0, List.nil_append] at e2
  simp only at e3 e4 e5 e6 e7 e2
  rw [hsz, zero_add] at e6
  have hgt : inGrid t.head_pos.x t.head_pos.y := by
    rw [e3]; exact stepN_inGrid _ _ _ hxy
  have hbt : inSnake t.snake_begin := by rw [e5]; exact hb
  have hlt : t.snake_size < SNAKE_CAP := by
    rw [e6]; simp only [SNAKE_CAP, ROWS, COLS]; omega
  have hok := snake_add_ok t.head_pos.x t.head_pos.y t hbt (by omega) hlt hgt
  have hct := contents_snake_add t.head_pos.x t.head_pos.y t hbt (by omega) hlt
  have hcont : contents
      { t with cells := setCell (setCell t.cells t.head_pos.x t.head_pos.y Cell.cell_body)
                 t.head_pos.x t.head_pos.y Cell.cell_head,
               snake := setSlot t.snake ((t.snake_begin + t.snake_size) % 400)
                 ⟨t.head_pos.x, t.head_pos.y⟩,
               snake_size := t.snake_size + 1 } =
      (List.range (k + 1)).map (stepN ⟨x, y⟩ d) := by
    rw [List.range_succ, List.map_append, ← e2, List.map_cons, List.map_nil, ← e3, ← hct]
    exact contents_congr _ _ rfl rfl rfl
  have hnL : stepN ⟨x, y⟩ d k ∉ (List.range k).map (stepN ⟨x, y⟩ d) := by
    intro hm
    obtain ⟨i, hi, hie⟩ := List.mem_map.mp hm
    rw [List.mem_range] at hi
    exact stepN_ne ⟨x, y⟩ d i k hxy hi hk20 hie
  have hcells : ∀ a b,
      setCell (setCell t.cells t.head_pos.x t.head_pos.y Cell.cell_body)
          t.head_pos.x t.head_pos.y Cell.cell_head a b =
        if (⟨a, b⟩ : Point) = stepN ⟨x, y⟩ d k then Cell.cell_head
        else if (⟨a, b⟩ : Point) ∈ (List.range k).map (stepN ⟨x, y⟩ d) then Cell.cell_body
        else Cell.cell_empty := by
    intro a b
    simp only [setCell, e7, hempty, e3]
    by_cases hh : (⟨a, b⟩ : Point) = stepN ⟨x, y⟩ d k
    · rw [if_pos hh, if_pos ⟨by rw [← hh], by rw [← hh]⟩]
    · have : ¬ (a = (stepN ⟨x, y⟩ d k).x ∧ b = (stepN ⟨x, y⟩ d k).y) := by
        intro h
        apply hh
        ext
        · exact h.1
        · exact h.2
      rw [if_neg hh, if_neg this, if_neg this]
  refine ⟨
      { t with cells := setCell (setCell t.cells t.head_pos.x t.head_pos.y Cell.cell_body)
                 t.head_pos.x t.head_pos.y Cell.cell_head,
               snake := setSlot t.snake ((t.snake_begin + t.snake_size) % 400)
                 ⟨t.head_pos.x, t.head_pos.y⟩,
               snake_size := t.snake_size + 1 }, ?_, ?_, ?_, ?_, e4, e5, ?_, ?_, ?_⟩
  · simp only [spawn_snake, ek, e1, Res.bind, hok, cell_at_set, hgt, if_true]
  · simp only [e6]
  · rw [ek1]; exact hcont
  · rw [ek1]; exact e3
  · intro a b
    rw [hcont]
    simp only
    rw [hcells, e3]
    by_cases hh : (⟨a, b⟩ : Point) = stepN ⟨x, y⟩ d k
    · rw [if_pos hh, if_pos hh]
    · have hiff : (⟨a, b⟩ : Point) ∈ (List.range (k + 1)).map (stepN ⟨x, y⟩ d) ↔
          (⟨a, b⟩ : Point) ∈ (List.range k).map (stepN ⟨x, y⟩ d) := by
        rw [List.range_succ, List.map_append, List.mem_append]
        simp [hh]
      simp only [hh, if_false, hiff]
  · exact e8
  · apply Consistent.of_parts _ ((List.range k).map (stepN ⟨x, y⟩ d)) (stepN ⟨x, y⟩ d k)
    · exact hbt
    · simp only; omega
    · simp only [SNAKE_CAP, ROWS, COLS]; omega
    · rw [hcont, List.range_succ, List.map_append]; rfl
    · exact e3
    · apply List.Nodup.map_on _ (List.nodup_range _)
      intro i hi j hj hij
      rw [List.mem_range] at hi hj
      by_contra hne
      rcases Nat.lt_or_gt_of_ne hne with hlt' | hlt'
      · exact stepN_ne ⟨x, y⟩ d i j hxy hlt' (by omega) hij
      · exact stepN_ne ⟨x, y⟩ d j i hxy hlt' (by omega) hij.symm
    · exact hnL
    · intro p hp
      obtain ⟨i, _, rfl⟩ := List.mem_map.mp hp
      exact stepN_inGrid _ _ _ hxy
    · exact stepN_inGrid _ _ _ hxy
    · simp only
      rw [hcells, if_pos rfl]
    · intro p hp
      simp only
      rw [hcells, if_neg (fun h => hnL ((show p = stepN ⟨x, y⟩ d k from h) ▸ hp)), if_pos hp]
    · intro a b _ hm hne
      left
      simp only
      rw [hcells, if_neg (fun h => hne ⟨by rw [← h], by rw [← h]⟩), if_neg hm]
    · intro a b a' b' _ _ h _
      simp only at h
      rw [hcells] at h
      split_ifs at h

/-! ## Lemmas on the start-up code -/

theorem spawn_egg_cases (rng : Nat → Nat) : ∀ (fuel : Nat) (t : State),
    spawn_egg rng fuel t = Res.spin ∨
    ∃ k, t.cells (draw rng (t.rand_calls + 2 * k)).x
        (draw rng (t.rand_calls + 2 * k)).y = Cell.cell_empty ∧
      spawn_egg rng fuel t = Res.ok
        { t with
          cells := setCell t.cells (draw rng (t.rand_calls + 2 * k)).x
            (draw rng (t.rand_calls + 2 * k)).y Cell.cell_egg,
          rand_calls := t.rand_calls + 2 * (k + 1) } := by
  intro fuel t
  by_cases hex : ∃ k, k < fuel ∧ t.cells (draw rng (t.rand_calls + 2 * k)).x
      (draw rng (t.rand_calls + 2 * k)).y = Cell.cell_empty
  · right
    classical
    have hk := Nat.find_spec hex
    exact ⟨Nat.find hex, hk.2, spawn_egg_hit rng _ fuel t hk.1
      (fun j hj hc => Nat.find_min hex hj ⟨by omega, hc⟩) hk.2⟩
  · left
    exact spawn_egg_miss rng fuel t (fun j hj hc => hex ⟨j, hj, hc⟩)

theorem Consistent.place_egg {t : State} (hc : Consistent t) (e : Point) (r : Nat)
    (hne : ∀ x y, inGrid x y → t.cells x y ≠ Cell.cell_egg)
    (he : t.cells e.x e.y = Cell.cell_empty) :
    Consistent { t with cells := setCell t.cells e.x e.y Cell.cell_egg, rand_calls := r } := by
  have hct : contents { t with cells := setCell t.cells e.x e.y Cell.cell_egg,
                               rand_calls := r } = contents t :=
    contents_congr _ _ rfl rfl rfl
  have hem := hc.not_mem_of_cell e (Or.inl he)
  have hpe : ∀ p : Point, p ∈ contents t → ¬ (p.x = e.x ∧ p.y = e.y) := by
    intro p hp h
    have : p = e := by ext; exact h.1; exact h.2
    rw [this] at hp
    exact hem hp
  refine ⟨hc.begin_ok, hc.size_pos, hc.size_le, ?_, ?_, ?_, ?_, ?_, ?_, ?_⟩
  · rw [hct]; exact hc.nodup
  · rw [hct]; exact hc.in_grid
  · rw [hct]; exact hc.head_last
  · simp only [setCell]
    rw [if_neg (hpe _ hc.head_mem)]
    exact hc.head_cell
  · intro p hp hn
    rw [hct] at hp
    simp only [setCell]
    rw [if_neg (hpe p hp)]
    exact hc.body_cell p hp hn
  · intro x y hxy hm
    rw [hct] at hm
    simp only [setCell]
    split
    · exact Or.inr rfl
    · exact hc.rest x y hxy hm
  · intro x y a b h1 h2 h3 h4
    simp only [setCell] at h3 h4
    split at h3
    · rename_i hx
      split at h4
      · rename_i ha
        exact ⟨hx.1.trans ha.1.symm, hx.2.trans ha.2.symm⟩
      · exact absurd h4 (hne a b h2)
    · exact absurd h3 (hne x y h1)

theorem get_high_score_globals (scan : Int → Int) (file : Option Int) :
    inSnake (get_high_score scan (globals file)).snake_begin ∧
      (get_high_score scan (globals file)).snake_size = 0 ∧
      (∀ a b, (get_high_score scan (globals file)).cells a b = Cell.cell_empty) ∧
      (get_high_score scan (globals file)).score = 0 ∧
      (get_high_score scan (globals file)).pause_flag = false ∧
      (get_high_score scan (globals file)).out = [] := by
  have h0 : inSnake (0 : Int) := by decide
  cases file <;> exact ⟨h0, rfl, fun _ _ => rfl, rfl, rfl, rfl⟩

theorem main_init_outcome (rng : Nat → Nat) (fuel : Nat) (scan : Int → Int)
    (file : Option Int) :
    main_init rng fuel scan file = Res.spin ∨
    ∃ s, main_init rng fuel scan file = Res.ok s ∧ GameInv s ∧
      s.high_score = (get_high_score scan (globals file)).high_score ∧
      s.hs_file = (get_high_score scan (globals file)).hs_file ∧
      s.snake_size = 1 ∧ s.head_pos = ⟨10, 10⟩ ∧ s.snake_head_dir = Dir.left ∧
      s.pause_flag = false ∧ s.score = 0 := by
  obtain ⟨g1, g2, g3, g4, g5, g6⟩ := get_high_score_globals scan file
  obtain ⟨s1, e1, e2, e3, e4, e5, e6, e7, e8, e9⟩ :=
    spawn_snake_spec 10 10 Dir.left 1 (get_high_score scan (globals file))
      g1 g2 g3 (by decide) (by decide) (by decide)
  have hinit : main_init rng fuel scan file = spawn_egg rng fuel s1 := by
    unfold main_init
    have : spawn_snake (Int.tdiv ROWS 2) (Int.tdiv COLS 2) Dir.left 1
        (get_high_score scan (globals file)) = Res.ok s1 := e1
    rw [this]
    rfl
  obtain ⟨f1, f2, f3, f4, f5, f6⟩ := e8
  have hnoegg : ∀ x y, inGrid x y → s1.cells x y ≠ Cell.cell_egg := by
    intro x y _
    rw [e7]
    split_ifs <;> simp
  rcases spawn_egg_cases rng fuel s1 with h | ⟨k, hk, h⟩
  · left; rw [hinit]; exact h
  · right
    refine ⟨_, by rw [hinit]; exact h, ⟨e9.place_egg _ _ hnoegg hk, ?_, ?_, ?_⟩,
      f2, f4, e2, e4, e5, ?_, ?_⟩
    · exact ⟨(draw rng (s1.rand_calls + 2 * k)).x, (draw rng (s1.rand_calls + 2 * k)).y,
        draw_inGrid rng _, by simp [setCell]⟩
    · simp only [f1, e2, g4]; rfl
    · simp only [f6, g6]
    · simp only [f3, g5]
    · simp only [f1, g4]

/-! ## What a run may end in -/

theorem GameInv.size_lt {s : State} (hg : GameInv s) : s.snake_size < SNAKE_CAP := by
  obtain ⟨x, y, hxy, he⟩ := hg.egg
  exact hg.consistent.size_lt_of_free ⟨x, y⟩ hxy
    (hg.consistent.not_mem_of_cell ⟨x, y⟩ (Or.inr he))

theorem GameInv.score_range {s : State} (hg : GameInv s) :
    0 ≤ s.score ∧ s.score < SNAKE_CAP - 1 := by
  have h1 := hg.size_lt
  have h2 := hg.consistent.size_pos
  have h3 := hg.score_eq
  constructor <;> omega

theorem GameInv.transfer {s t : State} (hg : GameInv s) (h1 : t.cells = s.cells)
    (h2 : t.snake = s.snake) (h3 : t.snake_begin = s.snake_begin)
    (h4 : t.snake_size = s.snake_size) (h5 : t.head_pos = s.head_pos)
    (h6 : t.score = s.score) (h9 : t.out = s.out) : GameInv t := by
  refine ⟨hg.consistent.congr h1 h2 h3 h4 h5, ?_, ?_, ?_⟩
  · rw [h1]; exact hg.egg
  · rw [h6, h4]; exact hg.score_eq
  · rw [h9]; exact hg.silent

theorem GameInv.after_move {s : State} (hg : GameInv s)
    (hn : s.cells (step_point s.head_pos s.snake_head_dir).x
      (step_point s.head_pos s.snake_head_dir).y = Cell.cell_empty) :
    GameInv (movedState s) := by
  have hc := hg.consistent
  refine ⟨hc.movedState hn, ?_, ?_, hg.silent⟩
  · obtain ⟨x, y, hxy, he⟩ := hg.egg
    refine ⟨x, y, hxy, ?_⟩
    have hm := hc.not_mem_of_cell ⟨x, y⟩ (Or.inr he)
    have h1 : ¬ (x = (step_point s.head_pos s.snake_head_dir).x ∧
        y = (step_point s.head_pos s.snake_head_dir).y) := by
      intro h
      rw [h.1, h.2, hn] at he
      cases he
    have h2 : ¬ (x = (seg s 0).x ∧ y = (seg s 0).y) := by
      intro h
      apply hm
      have : (⟨x, y⟩ : Point) = seg s 0 := by ext; exact h.1; exact h.2
      rw [this]; exact hc.tail_mem
    have h3 : ¬ (x = s.head_pos.x ∧ y = s.head_pos.y) := by
      intro h
      apply hm
      have : (⟨x, y⟩ : Point) = s.head_pos := by ext; exact h.1; exact h.2
      rw [this]; exact hc.head_mem
    rw [cells_movedState, if_neg h1, if_neg h2, if_neg h3]
    exact he
  · have := hg.score_eq
    simp only [Snek.movedState]
    omega

theorem GameInv.after_eat {s : State} (hg : GameInv s) (rng : Nat → Nat) (k : Nat)
    (hn : s.cells (step_point s.head_pos s.snake_head_dir).x
      (step_point s.head_pos s.snake_head_dir).y = Cell.cell_egg)
    (hhit : s.cells (draw rng (s.rand_calls + 2 * k)).x
      (draw rng (s.rand_calls + 2 * k)).y = Cell.cell_empty) :
    GameInv (ateState rng k s) := by
  have hc := hg.consistent
  refine ⟨hc.ateState rng k hn hhit, ?_, ?_, hg.silent⟩
  · exact ⟨_, _, draw_inGrid rng (s.rand_calls + 2 * k),
      (cells_ateState_egg_iff rng k hc hn hhit _ _ (draw_inGrid rng _)).mpr ⟨rfl, rfl⟩⟩
  · have := hg.score_eq
    simp only [Snek.ateState]
    omega

theorem main_key_cases (c : Char) (s : State) :
    (∃ s1, main_key c s = Res.ok s1) ∨ main_key c s = Res.exit 0 (set_high_score s) := by
  unfold main_key
  split_ifs <;> first
    | exact Or.inl ⟨_, rfl⟩
    | exact Or.inr rfl

theorem main_input_cases (inp : Input) (s : State) :
    (∃ s1, main_input inp s = Res.ok s1) ∨
      main_input inp s = Res.exit 0 (set_high_score s) ∨
      main_input inp s = Res.exit 1 (set_high_score s) := by
  cases inp with
  | key c =>
    rcases main_key_cases c s with h | h
    · exact Or.inl h
    · exact Or.inr (Or.inl h)
  | nothing => exact Or.inl ⟨s, rfl⟩
  | failure => exact Or.inr (Or.inr rfl)

theorem main_tick_cases (rng : Nat → Nat) (fuel : Nat) (s : State) (hc : Consistent s) :
    (ahead s = Cell.cell_empty ∧ main_tick rng fuel s = Res.ok (movedState s)) ∨
    (ahead s = Cell.cell_egg ∧ main_tick rng fuel s = Res.spin) ∨
    (ahead s = Cell.cell_egg ∧ ∃ k, k < fuel ∧
      s.cells (draw rng (s.rand_calls + 2 * k)).x
        (draw rng (s.rand_calls + 2 * k)).y = Cell.cell_empty ∧
      main_tick rng fuel s = Res.ok (ateState rng k s)) ∨
    (ahead s = Cell.cell_body ∧ main_tick rng fuel s = Res.exit 0 (set_high_score
      (print "You lost!\n"
        { s with cells := setCell s.cells s.head_pos.x s.head_pos.y Cell.cell_body,
                 head_pos := step_point s.head_pos s.snake_head_dir }))) := by
  unfold ahead
  rcases hc.next_cell with hn | hn | hn
  · exact Or.inl ⟨hn, main_tick_moved rng fuel s hc hn⟩
  · by_cases hex : ∃ k, k < fuel ∧ s.cells (draw rng (s.rand_calls + 2 * k)).x
        (draw rng (s.rand_calls + 2 * k)).y = Cell.cell_empty
    · classical
      have hk := Nat.find_spec hex
      have hmin : ∀ j, j < Nat.find hex → s.cells (draw rng (s.rand_calls + 2 * j)).x
          (draw rng (s.rand_calls + 2 * j)).y ≠ Cell.cell_empty :=
        fun j hj hc' => Nat.find_min hex hj ⟨by omega, hc'⟩
      exact Or.inr (Or.inr (Or.inl ⟨hn, _, hk.1, hk.2,
        main_tick_ate rng fuel _ s hc hn hk.1 hmin hk.2⟩))
    · exact Or.inr (Or.inl ⟨hn, main_tick_spin rng fuel s hc hn
        (fun j hj hc' => hex ⟨j, hj, hc'⟩)⟩)
  · have hne := step_point_ne s.head_pos s.snake_head_dir
    exact Or.inr (Or.inr (Or.inr ⟨hn, main_tick_lost rng fuel s hc.head_inGrid
      (by simp only [setCell, hne, if_false]; exact hn)⟩))

theorem main_tick_outcome (rng : Nat → Nat) (fuel : Nat) (s : State) (hs : Int)
    (f : Option Int) (hg : GameInv s) (hh : s.high_score = hs) (hf : s.hs_file = f) :
    Outcome hs f (main_tick rng fuel s) := by
  rcases main_tick_cases rng fuel s hg.consistent with
    ⟨hn, h⟩ | ⟨_, h⟩ | ⟨hn, k, _, hk, h⟩ | ⟨_, h⟩
  · rw [h]; exact ⟨hg.after_move hn, hh, hf⟩
  · rw [h]; trivial
  · rw [h]; exact ⟨hg.after_eat rng k hn hk, hh, hf⟩
  · rw [h]
    have hsr := hg.score_range
    refine ⟨_, rfl, hf, hh, hsr.1, hsr.2, Or.inl ⟨rfl, ?_⟩⟩
    simp only [print, hg.silent, List.nil_append]

theorem main_iter_outcome (rng : Nat → Nat) (fuel : Nat) (inp : Input) (s : State)
    (hs : Int) (f : Option Int) (hg : GameInv s) (hh : s.high_score = hs)
    (hf : s.hs_file = f) : Outcome hs f (main_iter rng fuel inp s) := by
  have hsr := hg.score_range
  unfold main_iter
  rcases main_input_cases inp s with ⟨s1, h⟩ | h | h
  · obtain ⟨f1, f2, f3, f4, f5, f6, f7, f8, _, f10⟩ := main_input_frame inp s s1 h
    have hg1 : GameInv s1 := hg.transfer f1 f2 f3 f4 f5 f6 f10
    rw [h]
    simp only [Res.bind]
    split
    · exact main_tick_outcome rng fuel s1 hs f hg1 (f7.trans hh) (f8.trans hf)
    · exact ⟨hg1, f7.trans hh, f8.trans hf⟩
  · rw [h]
    exact ⟨s, rfl, hf, hh, hsr.1, hsr.2, Or.inr ⟨hg.silent, Or.inl rfl⟩⟩
  · rw [h]
    exact ⟨s, rfl, hf, hh, hsr.1, hsr.2, Or.inr ⟨hg.silent, Or.inr rfl⟩⟩

theorem main_loop_outcome (rng : Nat → Nat) (fuel : Nat) (hs : Int) (f : Option Int)
    (inputs : List Input) :
    ∀ s, GameInv s → s.high_score = hs → s.hs_file = f →
      Outcome hs f (main_loop rng fuel inputs s) := by
  induction inputs with
  | nil => intro s hg hh hf; exact ⟨hg, hh, hf⟩
  | cons inp rest ih =>
    intro s hg hh hf
    have h := main_iter_outcome rng fuel inp s hs f hg hh hf
    simp only [main_loop]
    cases h1 : main_iter rng fuel inp s with
    | ok s1 =>
      rw [h1] at h
      exact ih s1 h.1 h.2.1 h.2.2
    | exit c st => rw [h1] at h; exact h
    | fault => rw [h1] at h; exact h
    | spin => trivial

theorem main_run_outcome (rng : Nat → Nat) (fuel : Nat) (scan : Int → Int)
    (file : Option Int) (inputs : List Input) :
    Outcome (get_high_score scan (globals file)).high_score
      (get_high_score scan (globals file)).hs_file
      (main_run rng fuel scan file inputs) := by
  unfold main_run
  rcases main_init_outcome rng fuel scan file with h | ⟨s, h, hg, hh, hf, _⟩
  · rw [h]; trivial
  · rw [h]
    exact main_loop_outcome rng fuel _ _ inputs s hg hh hf

/-! ## The reverse guard in unpaused play -/

theorem Consistent.seg_last {s : State} (hc : Consistent s) :
    seg s (s.snake_size - 1) = s.head_pos := by
  have hl := hc.head_last
  have hp := hc.size_pos
  obtain ⟨n, hn⟩ : ∃ n : Nat, s.snake_size = (n : Int) + 1 :=
    ⟨(s.snake_size - 1).toNat, by omega⟩
  have e : s.snake_size.toNat = n + 1 := by omega
  unfold contents at hl
  rw [e, List.range_succ, List.map_append, List.map_cons, List.map_nil,
    List.getLast?_concat] at hl
  have e2 : s.snake_size - 1 = (n : Int) := by omega
  rw [e2]
  exact Option.some.inj hl

theorem seg_mem_contents (s : State) (i : Int) (h0 : 0 ≤ i)
    (h1 : i < s.snake_size) : seg s i ∈ contents s := by
  obtain ⟨n, rfl⟩ := Int.eq_ofNat_of_zero_le h0
  unfold contents
  exact List.mem_map.mpr ⟨n, List.mem_range.mpr (by omega), rfl⟩

theorem step_back_reverse (p : Point) (d d' : Dir) (h : inGrid p.x p.y)
    (hs : step_point (step_point p d) d' = p) : d' = reverseDir d := by
  simp only [inGrid, ROWS, COLS] at h
  cases p with
  | mk x y =>
    simp only at h
    cases d <;> cases d' <;>
      simp only [step_point_eq, Point.mk.injEq, reverseDir] at hs ⊢ <;> omega

theorem main_key_heading (c : Char) (s s1 : State) (h : main_key c s = Res.ok s1) :
    s1.snake_head_dir ≠ reverseDir s.snake_head_dir ∧
      (c ≠ 'p' → s1.pause_flag = s.pause_flag) := by
  have hd : s.snake_head_dir ≠ reverseDir s.snake_head_dir := by
    cases s.snake_head_dir <;> simp [reverseDir]
  unfold main_key at h
  split_ifs at h with h1 h2 h3 h4 h5 h6 h7 h8 h9 h10
  all_goals first
    | (simp only [quit] at h; cases h)
    | (cases h
       refine ⟨?_, fun hc => ?_⟩
       · first
           | exact hd
           | (simp only
              intro hr
              revert hr
              cases hsd : s.snake_head_dir <;> simp_all [reverseDir])
       · first
           | rfl
           | exact absurd (by assumption) hc)

theorem main_input_heading (inp : Input) (s s1 : State) (h : main_input inp s = Res.ok s1) :
    s1.snake_head_dir ≠ reverseDir s.snake_head_dir ∧
      (inp ≠ Input.key 'p' → s1.pause_flag = s.pause_flag) := by
  cases inp with
  | key c =>
    obtain ⟨h1, h2⟩ := main_key_heading c s s1 h
    exact ⟨h1, fun hc => h2 (fun h' => hc (by rw [h']))⟩
  | nothing =>
    simp only [main_input, Res.ok.injEq] at h
    subst h
    refine ⟨?_, fun _ => rfl⟩
    cases s.snake_head_dir <;> simp [reverseDir]
  | failure => simp [main_input, quit] at h

theorem main_tick_straight (rng : Nat → Nat) (fuel : Nat) (s s' : State)
    (hc : Consistent s) (h : main_tick rng fuel s = Res.ok s') : Straight s' := by
  have hb := hc.begin_ok
  have hp := hc.size_pos
  have hl := hc.size_le
  have hlast := hc.seg_last
  simp only [inSnake, SNAKE_CAP, ROWS, COLS] at hb hl
  rcases main_tick_ok_inv rng fuel s s' hc h with ⟨_, rfl⟩ | ⟨hn, k, _, _, rfl⟩
  · intro h1
    simp only [movedState] at h1
    have hneck : seg (movedState s) ((movedState s).snake_size - 2) = s.head_pos := by
      rw [← hlast]
      simp only [seg, movedState, setSlot]
      rw [tmod_cap _ (by omega), tmod_cap _ (by omega), if_neg (by omega)]
      congr 1
      omega
    rw [hneck]
    rfl
  · have hlt := hc.size_lt_of_free _ (hc.next_inGrid s.snake_head_dir)
      (hc.not_mem_of_cell _ (Or.inr hn))
    simp only [SNAKE_CAP, ROWS, COLS] at hlt
    intro _
    have hneck : seg (ateState rng k s) ((ateState rng k s).snake_size - 2) = s.head_pos := by
      rw [← hlast]
      simp only [seg, ateState, setSlot]
      rw [tmod_cap _ (by omega), tmod_cap _ (by omega), if_neg (by omega)]
      congr 1
      omega
    rw [hneck]
    rfl

theorem Straight.no_reverse {s s1 : State} (hs : Straight s) (hc : Consistent s)
    (h1 : 1 < s.snake_size) (inp : Input) (h : main_input inp s = Res.ok s1) :
    step_point s1.head_pos s1.snake_head_dir ≠ seg s1 (s1.snake_size - 2) := by
  obtain ⟨_, f2, f3, f4, f5, _⟩ := main_input_frame inp s s1 h
  have hd := (main_input_heading inp s s1 h).1
  have hseg : seg s1 (s1.snake_size - 2) = seg s (s.snake_size - 2) := by
    simp only [seg, f2, f3, f4]
  rw [hseg, f5]
  intro hstep
  have hin : inGrid (seg s (s.snake_size - 2)).x (seg s (s.snake_size - 2)).y :=
    hc.in_grid _ (seg_mem_contents s _ (by omega) (by omega))
  have hhead := hs h1
  rw [hhead] at hstep
  exact hd (step_back_reverse _ _ _ hin hstep)

theorem main_loop_unpaused (rng : Nat → Nat) (fuel : Nat) (inputs : List Input) :
    ∀ s s', (∀ i ∈ inputs, i ≠ Input.key 'p') → Consistent s → Straight s →
      s.pause_flag = false → main_loop rng fuel inputs s = Res.ok s' →
      Straight s' ∧ s'.pause_flag = false := by
  induction inputs with
  | nil =>
    intro s s' _ _ hs hp h
    simp only [main_loop, Res.ok.injEq] at h
    subst h
    exact ⟨hs, hp⟩
  | cons inp rest ih =>
    intro s s' hk hc hs hp h
    simp only [main_loop] at h
    cases h1 : main_iter rng fuel inp s with
    | ok s1 =>
      rw [h1] at h
      simp only [Res.bind] at h
      have hc1 := main_iter_consistent rng fuel inp s s1 hc h1
      unfold main_iter at h1
      cases h2 : main_input inp s with
      | ok s0 =>
        rw [h2] at h1
        simp only [Res.bind] at h1
        have hp0 : s0.pause_flag = false := by
          rw [(main_input_heading inp s s0 h2).2 (hk inp (List.mem_cons_self _ _))]
          exact hp
        simp only [hp0, Bool.not_false, if_true] at h1
        have hc0 := main_input_consistent inp s s0 hc h2
        have hs1 := main_tick_straight rng fuel s0 s1 hc0 h1
        have hp1 : s1.pause_flag = false := by
          rcases main_tick_ok_inv rng fuel s0 s1 hc0 h1 with ⟨_, rfl⟩ | ⟨_, k, _, _, rfl⟩
          · exact hp0
          · exact hp0
        exact ih s1 s' (fun i hi => hk i (List.mem_cons_of_mem _ hi)) hc1 hs1 hp1 h
      | exit c st => rw [h2] at h1; simp [Res.bind] at h1
      | fault => rw [h2] at h1; simp [Res.bind] at h1
      | spin => rw [h2] at h1; simp [Res.bind] at h1
    | exit c st => rw [h1] at h; simp [Res.bind] at h
    | fault => rw [h1] at h; simp [Res.bind] at h
    | spin => rw [h1] at h; simp [Res.bind] at h

theorem unpaused_run_never_reverses (rng : Nat → Nat) (fuel : Nat) (scan : Int → Int)
    (file : Option Int)
    (inputs : List Input) (inp : Input) (s s1 : State)
    (hk : ∀ i ∈ inputs, i ≠ Input.key 'p')
    (h : main_run rng fuel scan file inputs = Res.ok s) (h1 : 1 < s.snake_size)
    (hin : main_input inp s = Res.ok s1) :
    step_point s1.head_pos s1.snake_head_dir ≠ seg s1 (s1.snake_size - 2) := by
  have ho := main_run_outcome rng fuel scan file inputs
  rw [h] at ho
  unfold main_run at h
  rcases main_init_outcome rng fuel scan file with h0 | ⟨s0, h0, hg, _, _, hsz, _, _, hp, _⟩
  · rw [h0] at h; simp [Res.bind] at h
  · rw [h0] at h
    simp only [Res.bind] at h
    have hs0 : Straight s0 := by
      intro hlt
      rw [hsz] at hlt
      omega
    have := main_loop_unpaused rng fuel inputs s0 s hk hg.consistent hs0 hp h
    exact this.1.no_reverse ho.1.consistent h1 inp hin

/-! ## Claims -/

/-- C1: for every heading and every direction key (k, j, h, l) the key handler
keeps the heading when the request is its exact reverse and otherwise adopts the
request, changing nothing else; with heading right, `h` leaves it right while
`k` and `j` turn it up and down. -/
theorem main_key_reverse_rejected (s : State) (r : Dir) :
    main_key (dirKey r) s =
        Res.ok { s with snake_head_dir :=
                   if r = reverseDir s.snake_head_dir then s.snake_head_dir else r } ∧
      main_key 'h' { s with snake_head_dir := Dir.right } =
        Res.ok { s with snake_head_dir := Dir.right } ∧
      main_key 'k' { s with snake_head_dir := Dir.right } =
        Res.ok { s with snake_head_dir := Dir.up } ∧
      main_key 'j' { s with snake_head_dir := Dir.right } =
        Res.ok { s with snake_head_dir := Dir.down } := by
  refine ⟨?_, ?_, ?_, ?_⟩
  · rcases s with ⟨c, sn, b, sz, d, hp, sc, hs, pf, f, rc, o⟩
    cases d <;> cases r <;> simp [main_key, dirKey, reverseDir]
  · simp [main_key]
  · simp [main_key]
  · simp [main_key]

/-- C2: on an in-range point `step_point` moves one cell with wrap-around: up and
down change the row to `(x - 1) mod ROWS` and `(x + 1) mod ROWS`, left and right
change the column to `(y - 1) mod COLS` and `(y + 1) mod COLS`, the other
coordinate is kept, the result is in range, and the four edges wrap to the
opposite edge. -/
theorem step_point_toroidal (p : Point) (h : inGrid p.x p.y) :
    step_point p Dir.up = ⟨(p.x - 1) % ROWS, p.y⟩ ∧
      step_point p Dir.down = ⟨(p.x + 1) % ROWS, p.y⟩ ∧
      step_point p Dir.left = ⟨p.x, (p.y - 1) % COLS⟩ ∧
      step_point p Dir.right = ⟨p.x, (p.y + 1) % COLS⟩ ∧
      (∀ d, inGrid (step_point p d).x (step_point p d).y) ∧
      step_point ⟨0, p.y⟩ Dir.up = ⟨ROWS - 1, p.y⟩ ∧
      step_point ⟨p.x, 0⟩ Dir.left = ⟨p.x, COLS - 1⟩ ∧
      step_point ⟨ROWS - 1, p.y⟩ Dir.down = ⟨0, p.y⟩ ∧
      step_point ⟨p.x, COLS - 1⟩ Dir.right = ⟨p.x, 0⟩ := by
  unfold inGrid at h
  simp only [ROWS, COLS] at h
  refine ⟨?_, ?_, ?_, ?_, ?_, ?_, ?_, ?_, ?_⟩
  · simp [step_point_eq, ROWS]
  · simp [step_point_eq, ROWS]
  · simp [step_point_eq, COLS]
  · simp [step_point_eq, COLS]
  · intro d
    cases d <;> simp only [step_point_eq, inGrid, ROWS, COLS] <;> omega
  · simp [step_point_eq, ROWS]
  · simp [step_point_eq, COLS]
  · simp [step_point_eq, ROWS]
  · simp [step_point_eq, COLS]

/-- Witness for C2 at the corner point (0, 19). -/
theorem step_point_toroidal_witness :
    inGrid 0 19 ∧ step_point ⟨0, 19⟩ Dir.up = ⟨ROWS - 1, 19⟩ ∧
      step_point ⟨0, 19⟩ Dir.right = ⟨0, (19 + 1) % COLS⟩ :=
  ⟨by decide, (step_point_toroidal ⟨0, 19⟩ (by decide)).2.2.2.2.2.1,
    (step_point_toroidal ⟨0, 19⟩ (by decide)).2.2.2.1⟩

/-- C3: for a positive modulus `mod a b` is the mathematical modulo: it lies in
`[0, b)`, equals `a % b` (hence is congruent to `a`), and `mod (-1) b = b - 1`. -/
theorem mod_true_modulo (a b : Int) (hb : 0 < b) :
    0 ≤ mod a b ∧ mod a b < b ∧ mod a b = a % b ∧ (mod a b - a) % b = 0 ∧
      mod (-1) b = b - 1 := by
  have h := mod_eq_emod a b hb
  refine ⟨?_, ?_, h, ?_, ?_⟩
  · rw [h]; exact Int.emod_nonneg _ hb.ne'
  · rw [h]; exact Int.emod_lt_of_pos _ hb
  · rw [h]
    have := Int.emod_emod_of_dvd a (dvd_refl b)
    rw [Int.sub_emod, this, sub_self]; simp
  · rw [mod_eq_emod _ _ hb]
    rcases eq_or_lt_of_le (show (1 : Int) ≤ b by omega) with h1 | h1
    · subst h1; simp
    · rw [← Int.add_emod_self, Int.emod_eq_of_lt (by omega) (by omega)]; ring

/-- Witness for C3 at the least 32-bit value and modulus 20. -/
theorem mod_true_modulo_witness :
    (0 : Int) < 20 ∧ (0 ≤ mod (-2147483648) 20 ∧ mod (-2147483648) 20 < 20 ∧
      mod (-2147483648) 20 = (-2147483648) % 20 ∧
      (mod (-2147483648) 20 - (-2147483648)) % 20 = 0 ∧ mod (-1) 20 = 20 - 1) :=
  ⟨by decide, mod_true_modulo (-2147483648) 20 (by decide)⟩

/-- C4 (as stated, refuted): the state `demo Dir.left` is consistent, its head
steps into the egg and the cell (0,0), like 397 others, is empty; yet with a
`rand()` that always returns 10 every draw of `spawn_egg` is the cell (10,10)
under the snake, so for every bound on the iterations the tick is still inside
that loop and nothing of the claimed result is produced. -/
theorem tick_eat_may_spin :
    Consistent (demo Dir.left) ∧ ahead (demo Dir.left) = Cell.cell_egg ∧
      (∃ x y, inGrid x y ∧ (demo Dir.left).cells x y = Cell.cell_empty) ∧
      ∀ fuel, main_tick (fun _ => 10) fuel (demo Dir.left) = Res.spin :=
  ⟨demo_consistent Dir.left, by decide, ⟨0, 0, by decide, by decide⟩,
    fun fuel => main_tick_spin (fun _ => 10) fuel (demo Dir.left)
      (demo_consistent Dir.left) (by decide)
      (fun _ _ => (by decide : (demo Dir.left).cells 10 10 ≠ Cell.cell_empty))⟩

/-- C4 (amended): in a consistent state whose head steps into the egg, and with a
`rand()` sequence that eventually draws a `cell_empty` cell, a tick returns (for every loop
bound from some point on, and with the same result whenever it returns) a
consistent state with `snake_size` and `score` each larger by one; the tail is kept (`snake_begin` unchanged, the stepped position
appended to the ring buffer), the eaten egg's cell is `cell_head`, and the only
`cell_egg` cell of the grid is a formerly `cell_empty` cell other than the new
head position. -/
theorem tick_eat_grows (rng : Nat → Nat) (s : State) (hc : Consistent s)
    (hegg : ahead s = Cell.cell_egg)
    (hdraw : ∃ k, s.cells (draw rng (s.rand_calls + 2 * k)).x
      (draw rng (s.rand_calls + 2 * k)).y = Cell.cell_empty) :
    ∃ n s', (∀ fuel, n ≤ fuel → main_tick rng fuel s = Res.ok s') ∧
      (∀ fuel s'', main_tick rng fuel s = Res.ok s'' → s'' = s') ∧ Consistent s' ∧
      s'.snake_size = s.snake_size + 1 ∧ s'.score = s.score + 1 ∧
      s'.snake_begin = s.snake_begin ∧
      contents s' = contents s ++ [step_point s.head_pos s.snake_head_dir] ∧
      s'.head_pos = step_point s.head_pos s.snake_head_dir ∧
      s'.cells s'.head_pos.x s'.head_pos.y = Cell.cell_head ∧
      ∃ e : Point, inGrid e.x e.y ∧ s.cells e.x e.y = Cell.cell_empty ∧ e ≠ s'.head_pos ∧
        ∀ x y, inGrid x y → (s'.cells x y = Cell.cell_egg ↔ x = e.x ∧ y = e.y) := by
  classical
  unfold ahead at hegg
  have hhit := Nat.find_spec hdraw
  have hmiss : ∀ j, j < Nat.find hdraw → s.cells (draw rng (s.rand_calls + 2 * j)).x
      (draw rng (s.rand_calls + 2 * j)).y ≠ Cell.cell_empty :=
    fun j hj => Nat.find_min hdraw hj
  have hc' := hc.ateState rng (Nat.find hdraw) hegg hhit
  have hlt := hc.size_lt_of_free _ (hc.next_inGrid s.snake_head_dir)
    (hc.not_mem_of_cell _ (Or.inr hegg))
  refine ⟨Nat.find hdraw + 1, ateState rng (Nat.find hdraw) s, ?_, ?_, hc', rfl, rfl, rfl, ?_,
    rfl, hc'.head_cell, draw rng (s.rand_calls + 2 * Nat.find hdraw), draw_inGrid _ _,
    hhit, ?_, ?_⟩
  · intro fuel hf
    exact main_tick_ate rng fuel _ s hc hegg (by omega) hmiss hhit
  · intro fuel s'' h
    by_cases hf : Nat.find hdraw < fuel
    · rw [main_tick_ate rng fuel _ s hc hegg hf hmiss hhit] at h
      exact (Res.ok.inj h).symm
    · rw [main_tick_spin rng fuel s hc hegg (fun j hj => hmiss j (by omega))] at h
      cases h
  · exact contents_ateState rng _ s hc.begin_ok (le_of_lt hc.size_pos) hlt
  · intro h
    have hh : (ateState rng (Nat.find hdraw) s).head_pos =
        step_point s.head_pos s.snake_head_dir := rfl
    rw [hh] at h
    rw [h, hegg] at hhit
    cases hhit
  · exact cells_ateState_egg_iff rng _ hc hegg hhit

/-- Witness for C4 (amended): the one-cell snake at (10,10) heading left eats the egg at
(10,9) while `rand()` keeps returning 0. -/
theorem tick_eat_grows_witness :
    Consistent (demo Dir.left) ∧ ahead (demo Dir.left) = Cell.cell_egg ∧
      ∃ n s', main_tick (fun _ => 0) n (demo Dir.left) = Res.ok s' ∧
        s'.snake_size = 2 ∧ s'.score = 1 := by
  have h := tick_eat_grows (fun _ => 0) (demo Dir.left) (demo_consistent Dir.left)
    (by decide) ⟨0, by decide⟩
  obtain ⟨n, s', h1, _, _, h2, h3, _⟩ := h
  exact ⟨demo_consistent Dir.left, by decide, n, s', h1 n le_rfl, h2, h3⟩

/-- C5: in a consistent state whose head steps into a `cell_empty` cell a tick
returns a consistent state with the same `snake_size`, `score` and number of
non-empty cells: the tail `seg s 0` leaves the ring buffer and its cell becomes
`cell_empty`, the stepped position is appended and its cell becomes `cell_head`,
the old head cell becomes `cell_body` (`cell_empty` when the length is 1, where it
is the tail), and no other cell changes.  The same three quantities are unchanged
after any run of loop iterations that are paused or tick into an empty cell. -/
theorem tick_move_keeps_size_and_occupancy (rng : Nat → Nat) (fuel : Nat) (s : State)
    (hc : Consistent s) (hn : ahead s = Cell.cell_empty) :
    (∃ s', main_tick rng fuel s = Res.ok s' ∧ Consistent s' ∧
      s'.snake_size = s.snake_size ∧ s'.score = s.score ∧
      occupancy s'.cells = occupancy s.cells ∧
      contents s = seg s 0 :: (contents s).tail ∧
      contents s' = (contents s).tail ++ [step_point s.head_pos s.snake_head_dir] ∧
      s'.head_pos = step_point s.head_pos s.snake_head_dir ∧
      s'.cells s'.head_pos.x s'.head_pos.y = Cell.cell_head ∧
      s'.cells (seg s 0).x (seg s 0).y = Cell.cell_empty ∧
      s'.cells s.head_pos.x s.head_pos.y =
        (if s.snake_size = 1 then Cell.cell_empty else Cell.cell_body) ∧
      ∀ p : Point, p ≠ s'.head_pos → p ≠ seg s 0 → p ≠ s.head_pos →
        s'.cells p.x p.y = s.cells p.x p.y) ∧
    (∀ inputs, EmptyRun rng fuel inputs s →
      ∃ s', main_loop rng fuel inputs s = Res.ok s' ∧ Consistent s' ∧
        s'.snake_size = s.snake_size ∧ s'.score = s.score ∧
        occupancy s'.cells = occupancy s.cells) := by
  unfold ahead at hn
  have hnm := hc.not_mem_of_cell _ (Or.inl hn)
  have hc' := hc.movedState hn
  obtain ⟨hct, hcm⟩ := contents_movedState s hc
  have hne : ¬ ((seg s 0).x = (step_point s.head_pos s.snake_head_dir).x ∧
      (seg s 0).y = (step_point s.head_pos s.snake_head_dir).y) := by
    intro h
    have : seg s 0 = step_point s.head_pos s.snake_head_dir := by ext; exact h.1; exact h.2
    rw [← this] at hnm
    exact hnm hc.tail_mem
  have hhd : (movedState s).head_pos = step_point s.head_pos s.snake_head_dir := rfl
  refine ⟨⟨movedState s, main_tick_moved rng fuel s hc hn, hc', ?_, rfl,
    occupancy_movedState s hc hn, hct, hcm, rfl, hc'.head_cell, ?_, ?_, ?_⟩,
    fun inputs hr => emptyRun_preserves rng fuel inputs s hc hr⟩
  · simp only [movedState]; omega
  · rw [cells_movedState, if_neg hne]; simp
  · have h1 : ¬ (s.head_pos.x = (step_point s.head_pos s.snake_head_dir).x ∧
        s.head_pos.y = (step_point s.head_pos s.snake_head_dir).y) :=
      fun h => step_point_ne s.head_pos s.snake_head_dir ⟨h.1.symm, h.2.symm⟩
    rw [cells_movedState, if_neg h1]
    by_cases h2 : s.snake_size = 1
    · have := hc.tail_eq_head_iff.mpr h2
      rw [if_pos ⟨by rw [this], by rw [this]⟩, if_pos h2]
    · have h3 : ¬ (s.head_pos.x = (seg s 0).x ∧ s.head_pos.y = (seg s 0).y) := by
        intro h
        apply h2
        apply hc.tail_eq_head_iff.mp
        ext
        · exact h.1.symm
        · exact h.2.symm
      rw [if_neg h3, if_neg h2]
      simp
  · intro p h1 h2 h3
    rw [hhd] at h1
    rw [cells_movedState, if_neg (fun h => h1 (by ext; exact h.1; exact h.2)),
      if_neg (fun h => h2 (by ext; exact h.1; exact h.2)),
      if_neg (fun h => h3 (by ext; exact h.1; exact h.2))]

/-- Witness for C5: the one-cell snake at (10,10) heading right moves to (10,11). -/
theorem tick_move_keeps_size_and_occupancy_witness :
    Consistent (demo Dir.right) ∧ ahead (demo Dir.right) = Cell.cell_empty ∧
      (∃ s', main_tick (fun _ => 0) 0 (demo Dir.right) = Res.ok s' ∧
        s'.snake_size = 1 ∧ s'.score = 0 ∧
        occupancy s'.cells = occupancy (demo Dir.right).cells ∧
        s'.head_pos = ⟨10, 11⟩ ∧ s'.cells 10 10 = Cell.cell_empty) := by
  have h := (tick_move_keeps_size_and_occupancy (fun _ => 0) 0 (demo Dir.right)
    (demo_consistent Dir.right) (by decide)).1
  obtain ⟨s', h1, _, h2, h3, h4, _, _, h5, _, _, h6, _⟩ := h
  exact ⟨demo_consistent Dir.right, by decide, s', h1, h2, h3, h4, h5, h6⟩

/-- C6: when, after the old head has been demoted to `cell_body` and with the tail
still in place, the cell the head steps into is `cell_body`, the tick ends the
process through `quit(0)` after printing "You lost!"; in the final state `score`,
the ring buffer, `snake_begin`, `snake_size` and the count of `rand()` calls are
as before the tick and the grid differs only by the demoted head, so no egg was
spawned and neither `snake_add` nor `snake_del` ran.  For a consistent snake this
covers stepping onto the current tail cell. -/
theorem tick_into_body_loses (rng : Nat → Nat) (fuel : Nat) (s : State)
    (hh : inGrid s.head_pos.x s.head_pos.y)
    (hn : setCell s.cells s.head_pos.x s.head_pos.y Cell.cell_body
      (step_point s.head_pos s.snake_head_dir).x
      (step_point s.head_pos s.snake_head_dir).y = Cell.cell_body) :
    (∃ st, main_tick rng fuel s = Res.exit 0 st ∧ st.out = s.out ++ ["You lost!\n"] ∧
      st.score = s.score ∧ st.rand_calls = s.rand_calls ∧
      st.cells = setCell s.cells s.head_pos.x s.head_pos.y Cell.cell_body ∧
      (∀ x y, st.cells x y = Cell.cell_egg → s.cells x y = Cell.cell_egg) ∧
      st.snake = s.snake ∧ st.snake_begin = s.snake_begin ∧
      st.snake_size = s.snake_size) ∧
    (Consistent s → step_point s.head_pos s.snake_head_dir = seg s 0 →
      ∃ st, main_tick rng fuel s = Res.exit 0 st) := by
  have htail : Consistent s → step_point s.head_pos s.snake_head_dir = seg s 0 →
      ∃ st, main_tick rng fuel s = Res.exit 0 st := by
    intro hc ht
    have hne := step_point_ne s.head_pos s.snake_head_dir
    have hb : s.cells (step_point s.head_pos s.snake_head_dir).x
        (step_point s.head_pos s.snake_head_dir).y = Cell.cell_body := by
      apply hc.body_cell
      · rw [ht]; exact hc.tail_mem
      · intro h
        exact hne ⟨by rw [h], by rw [h]⟩
    exact ⟨_, main_tick_lost rng fuel s hc.head_inGrid
      (by simp only [setCell, hne, if_false]; exact hb)⟩
  refine ⟨⟨_, main_tick_lost rng fuel s hh hn, ?_, ?_, ?_, ?_, ?_, ?_, ?_, ?_⟩, htail⟩
  all_goals unfold set_high_score print
  all_goals split
  all_goals first
    | rfl
    | (intro x y h
       simp only [setCell] at h
       split_ifs at h
       exact h)

/-- Witness for C6: on the full grid the head at (19,0) turns up into the body. -/
theorem tick_into_body_loses_witness :
    inGrid (fullGrid.head_pos).x (fullGrid.head_pos).y ∧
      ∃ st, main_tick (fun _ => 0) 0 { fullGrid with snake_head_dir := Dir.up } =
        Res.exit 0 st ∧ st.score = 398 ∧ st.rand_calls = 0 := by
  have h := (tick_into_body_loses (fun _ => 0) 0 { fullGrid with snake_head_dir := Dir.up }
    (by decide) (by decide)).1
  obtain ⟨st, h1, _, h2, h3, _⟩ := h
  exact ⟨by decide, st, h1, h2, h3⟩

/-- C7 (not met by the code): `fullGrid` is a consistent state whose snake has
`SNAKE_CAP - 1` cells, whose only other cell is the egg and whose head steps onto
that egg; no grid cell is `cell_empty`.  For every `rand()` sequence and every
bound on the iterations the tick is still inside the loop of `spawn_egg`: it never
returns and never reaches the "You Won!" exit of `snake_add`. -/
theorem full_grid_tick_spins (rng : Nat → Nat) (fuel : Nat) :
    Consistent fullGrid ∧ fullGrid.snake_size = SNAKE_CAP - 1 ∧
      ahead fullGrid = Cell.cell_egg ∧
      (∀ x y, inGrid x y → fullGrid.cells x y ≠ Cell.cell_empty) ∧
      main_tick rng fuel fullGrid = Res.spin := by
  have hne : ∀ x y, fullGrid.cells x y ≠ Cell.cell_empty := by
    intro x y
    simp only [fullGrid]
    split_ifs <;> simp
  refine ⟨fullGrid_consistent, by decide, by decide, fun x y _ => hne x y, ?_⟩
  exact main_tick_spin rng fuel fullGrid fullGrid_consistent (by decide)
    (fun j _ => hne _ _)

/-- C8: on a well-formed ring buffer `snake_add` ends the game (prints
"You Won!" and quits with code 0) exactly when `snake_size` equals `SNAKE_CAP`,
and then grid, ring buffer, `snake_begin` and `snake_size` are as before the call;
otherwise it returns with `snake_size` one larger and still at most `SNAKE_CAP`. -/
theorem snake_add_won_iff_full (x y : Int) (s : State) (hb : inSnake s.snake_begin)
    (h0 : 0 ≤ s.snake_size) (hle : s.snake_size ≤ SNAKE_CAP) (hxy : inGrid x y) :
    ((∃ c st, snake_add x y s = Res.exit c st) ↔ s.snake_size = SNAKE_CAP) ∧
    (s.snake_size = SNAKE_CAP →
      ∃ st, snake_add x y s = Res.exit 0 st ∧ st.out = s.out ++ ["You Won!"] ∧
        st.cells = s.cells ∧ st.snake = s.snake ∧ st.snake_begin = s.snake_begin ∧
        st.snake_size = s.snake_size) ∧
    (s.snake_size ≠ SNAKE_CAP →
      ∃ s', snake_add x y s = Res.ok s' ∧ s'.snake_size = s.snake_size + 1 ∧
        s'.snake_size ≤ SNAKE_CAP) := by
  refine ⟨⟨?_, ?_⟩, ?_, ?_⟩
  · rintro ⟨c, st, h⟩
    by_contra hne
    rw [snake_add_ok x y s hb h0 (by omega) hxy] at h
    cases h
  · intro h
    exact ⟨_, _, snake_add_full x y s (by omega)⟩
  · intro h
    refine ⟨_, snake_add_full x y s (by omega), ?_⟩
    unfold set_high_score print
    split <;> simp
  · intro hne
    refine ⟨_, snake_add_ok x y s hb h0 (by omega) hxy, rfl, ?_⟩
    simp only
    omega

/-- Witness for C8: the first `snake_add` on the initial globals. -/
theorem snake_add_won_iff_full_witness :
    inSnake (start 0).snake_begin ∧ 0 ≤ (start 0).snake_size ∧
      (start 0).snake_size ≤ SNAKE_CAP ∧ inGrid 10 10 ∧
      ((start 0).snake_size ≠ SNAKE_CAP →
        ∃ s', snake_add 10 10 (start 0) = Res.ok s' ∧
          s'.snake_size = (start 0).snake_size + 1 ∧ s'.snake_size ≤ SNAKE_CAP) :=
  ⟨by decide, by decide, by decide, by decide,
    (snake_add_won_iff_full 10 10 (start 0) (by decide) (by decide) (by decide)
      (by decide)).2.2⟩

/-- C9 (as stated, refuted): one `snake_add` on the freshly initialised globals
leaves a snake of size 1 whose only cell is marked `cell_body`; no cell of the
grid is marked `cell_head`. -/
theorem snake_add_marks_body_not_head :
    ∃ s', run_ops [Op.add 10 10] (start 0) = Res.ok s' ∧ 0 < s'.snake_size ∧
      s'.cells 10 10 = Cell.cell_body ∧ ∀ x y, s'.cells x y ≠ Cell.cell_head := by
  have h := snake_add_ok 10 10 (start 0) (by decide) (by decide) (by decide) (by decide)
  simp only [run_ops, h, Res.bind]
  refine ⟨_, rfl, ?_, ?_, ?_⟩
  · simp [start]
  · simp [start, setCell]
  · intro x y
    simp only [start, setCell]
    split <;> simp

/-- C9 (amended): `snake_add` marks the added cell `cell_body`, leaves every
other cell alone and stores the point as the newest of the ring buffer; after any
sequence of `snake_add` / `snake_del` calls on the initial globals no cell is
`cell_head`.  The head mark is written by the caller right after `snake_add`:
after any run of main-loop iterations from a consistent state the snake is not
empty and exactly one grid cell is `cell_head`, the one of the newest ring-buffer
point, which is the target of the most recent `snake_add`. -/
theorem snake_add_marks_body_caller_marks_head (x y : Int) (s : State)
    (hb : inSnake s.snake_begin) (h0 : 0 ≤ s.snake_size) (hlt : s.snake_size < SNAKE_CAP)
    (hxy : inGrid x y) :
    (∃ s', snake_add x y s = Res.ok s' ∧ s'.cells x y = Cell.cell_body ∧
      (∀ a b, ¬ (a = x ∧ b = y) → s'.cells a b = s.cells a b) ∧
      contents s' = contents s ++ [⟨x, y⟩]) ∧
    (∀ ops hs s', run_ops ops (start hs) = Res.ok s' →
      ∀ a b, s'.cells a b ≠ Cell.cell_head) ∧
    (∀ rng fuel inputs t t', Consistent t → main_loop rng fuel inputs t = Res.ok t' →
      0 < t'.snake_size ∧ inGrid t'.head_pos.x t'.head_pos.y ∧
      (contents t').getLast? = some t'.head_pos ∧
      ∀ a b, inGrid a b →
        (t'.cells a b = Cell.cell_head ↔ a = t'.head_pos.x ∧ b = t'.head_pos.y)) := by
  refine ⟨⟨_, snake_add_ok x y s hb h0 hlt hxy, ?_, ?_, contents_snake_add x y s hb h0 hlt⟩,
    ?_, ?_⟩
  · simp [setCell]
  · intro a b hab
    simp only [setCell, if_neg hab]
  · intro ops hs s' h
    exact run_ops_no_head ops (start hs) s' h (by intro a b; simp [start])
  · intro rng fuel inputs t t' hc h
    have hc' := main_loop_consistent rng fuel inputs t t' hc h
    exact ⟨hc'.size_pos, hc'.head_inGrid, hc'.head_last, hc'.head_iff⟩

/-- Witness for C9 (amended): the first `snake_add` on the initial globals. -/
theorem snake_add_marks_body_caller_marks_head_witness :
    inSnake (start 0).snake_begin ∧ 0 ≤ (start 0).snake_size ∧
      (start 0).snake_size < SNAKE_CAP ∧ inGrid 10 10 ∧
      ∃ s', snake_add 10 10 (start 0) = Res.ok s' ∧ s'.cells 10 10 = Cell.cell_body ∧
        contents s' = contents (start 0) ++ [⟨10, 10⟩] := by
  have h := (snake_add_marks_body_caller_marks_head 10 10 (start 0) (by decide) (by decide)
    (by decide) (by decide)).1
  obtain ⟨s', h1, h2, _, h3⟩ := h
  exact ⟨by decide, by decide, by decide, by decide, s', h1, h2, h3⟩

/-- C10: started on the initial globals, a sequence of `snake_add` / `snake_del`
calls returns exactly when the bounded FIFO queue of the specification accepts it,
and then the logical contents `snake[(begin + i) % SNAKE_CAP]`, `i < size`, are the
queue, `snake_size` is the number of adds minus the number of deletes and
`snake_begin` is the number of deletes modulo `SNAKE_CAP`; a further `snake_del`
on a non-empty buffer removes its oldest point and sets that cell `cell_empty`. -/
theorem ring_buffer_refines_fifo (ops : List Op) (hs : Int) :
    (∀ q, fifo_run ops [] = some q →
      ∃ s', run_ops ops (start hs) = Res.ok s' ∧ contents s' = q ∧
        s'.snake_size = (countAdd ops : Int) - countDel ops ∧
        s'.snake_begin = (countDel ops : Int) % SNAKE_CAP) ∧
    (∀ s', run_ops ops (start hs) = Res.ok s' →
      fifo_run ops [] = some (contents s') ∧
        s'.snake_size = (countAdd ops : Int) - countDel ops ∧
        s'.snake_begin = (countDel ops : Int) % SNAKE_CAP) ∧
    (∀ s' p rest, run_ops ops (start hs) = Res.ok s' → contents s' = p :: rest →
      ∃ s'', snake_del s' = Res.ok s'' ∧ contents s'' = rest ∧
        s''.cells p.x p.y = Cell.cell_empty ∧ s''.snake_size = s'.snake_size - 1 ∧
        s''.snake_begin = (s'.snake_begin + 1) % SNAKE_CAP) := by
  have hnil : contents (start hs) = [] := by simp [contents, start]
  obtain ⟨h1, h2⟩ := run_ops_fifo ops (start hs) (ringOK_start hs)
  rw [hnil] at h1 h2
  have key : ∀ s', run_ops ops (start hs) = Res.ok s' →
      RingOK s' ∧ fifo_run ops [] = some (contents s') ∧
        s'.snake_size = (countAdd ops : Int) - countDel ops ∧
        s'.snake_begin = (countDel ops : Int) % SNAKE_CAP := by
    intro s' hs'
    cases hf : fifo_run ops [] with
    | none => exact absurd hs' (h2 hf s')
    | some q =>
      obtain ⟨s'', e1, e2, e3, e4, e5⟩ := h1 q hf
      rw [hs'] at e1
      cases e1
      refine ⟨e2, by rw [e3], ?_, ?_⟩
      · rw [e4]; simp [start]
      · rw [e5]; simp [start, SNAKE_CAP, ROWS, COLS]
  refine ⟨?_, ?_, ?_⟩
  · intro q hq
    obtain ⟨s', e1, _, e3, e4, e5⟩ := h1 q hq
    refine ⟨s', e1, e3, ?_, ?_⟩
    · rw [e4]; simp [start]
    · rw [e5]; simp [start, SNAKE_CAP, ROWS, COLS]
  · intro s' hs'
    exact (key s' hs').2
  · intro s' p rest hs' hc
    obtain ⟨⟨hb, h0, _, hg⟩, _⟩ := key s' hs'
    have hpos : 0 < s'.snake_size := by
      have := contents_length s'
      rw [hc] at this
      simp at this
      omega
    have hct := contents_snake_del s' hb hpos
    rw [hc] at hct
    have hp : p = seg s' 0 := (List.cons.inj hct).1
    have hin : inGrid (seg s' 0).x (seg s' 0).y := by
      rw [← hp]; apply hg; rw [hc]; exact List.mem_cons_self _ _
    refine ⟨_, snake_del_ok s' hb hpos hin, (List.cons.inj hct).2.symm, ?_, rfl, ?_⟩
    · simp [setCell, hp]
    · simp [SNAKE_CAP, ROWS, COLS]

/-- C11: on a state with an all-empty grid and an empty ring buffer,
`spawn_snake(x, y, d, n)` with an in-range start and `1 <= n <=` the grid
dimension along `d` returns a consistent state with `snake_size = n`, ring-buffer
contents the start point stepped `0 .. n-1` times in direction `d`, those cells
`cell_body` except the last, which is `cell_head` and is `head_pos`, heading `d`,
and every other cell `cell_empty`.  A following tick into an empty cell moves the
head one step further, empties the start cell and keeps the size. -/
theorem spawn_snake_on_empty_grid (x y : Int) (d : Dir) (n : Int) (s : State)
    (hb : inSnake s.snake_begin) (hsz : s.snake_size = 0)
    (hempty : ∀ a b, s.cells a b = Cell.cell_empty) (hxy : inGrid x y)
    (h1 : 1 ≤ n) (hn : n ≤ dimAlong d) :
    ∃ s', spawn_snake x y d n s = Res.ok s' ∧ Consistent s' ∧ s'.snake_size = n ∧
      contents s' = (List.range n.toNat).map (stepN ⟨x, y⟩ d) ∧
      (∀ i : Nat, (i : Int) + 1 < n →
        s'.cells (stepN ⟨x, y⟩ d i).x (stepN ⟨x, y⟩ d i).y = Cell.cell_body) ∧
      s'.head_pos = stepN ⟨x, y⟩ d (n.toNat - 1) ∧
      s'.cells s'.head_pos.x s'.head_pos.y = Cell.cell_head ∧
      s'.snake_head_dir = d ∧
      (∀ a b, (⟨a, b⟩ : Point) ∉ contents s' → s'.cells a b = Cell.cell_empty) ∧
      (∀ rng fuel, ahead s' = Cell.cell_empty →
        ∃ s'', main_tick rng fuel s' = Res.ok s'' ∧
          s''.head_pos = step_point s'.head_pos d ∧ s''.cells x y = Cell.cell_empty ∧
          s''.snake_size = n) := by
  have h20 : n ≤ 20 := by
    cases d <;> simpa [dimAlong, ROWS, COLS] using hn
  obtain ⟨s', e1, e2, e3, e4, e5, e6, e7, _, e9⟩ :=
    spawn_snake_spec x y d n s hb hsz hempty hxy h1 h20
  have hmem : ∀ i : Nat, (i : Int) < n → stepN ⟨x, y⟩ d i ∈ contents s' := by
    intro i hi
    rw [e3]
    exact List.mem_map.mpr ⟨i, List.mem_range.mpr (by omega), rfl⟩
  refine ⟨s', e1, e9, e2, e3, ?_, e4, e9.head_cell, e5, ?_, ?_⟩
  · intro i hi
    apply e9.body_cell _ (hmem i (by omega))
    rw [e4]
    exact stepN_ne ⟨x, y⟩ d i (n.toNat - 1) hxy (by omega) (by omega)
  · intro a b hm
    have hh : (⟨a, b⟩ : Point) ≠ s'.head_pos := by
      intro h
      rw [h] at hm
      exact hm e9.head_mem
    rw [e7 a b, if_neg hh, if_neg hm]
  · intro rng fuel ha
    unfold ahead at ha
    have hseg : seg s' 0 = ⟨x, y⟩ := by
      have h0 := (contents_movedState s' e9).1
      have h3 : contents s' = ⟨x, y⟩ :: (List.range (n.toNat - 1)).map
          (stepN (step_point ⟨x, y⟩ d) d) := by
        rw [e3]
        obtain ⟨k, hk⟩ : ∃ k, n.toNat = k + 1 := ⟨n.toNat - 1, by omega⟩
        rw [hk, map_stepN_succ]
        rfl
      rw [h3] at h0
      exact (List.cons.inj h0).1.symm
    have hnm := e9.not_mem_of_cell _ (Or.inl ha)
    have hne : ¬ (x = (step_point s'.head_pos s'.snake_head_dir).x ∧
        y = (step_point s'.head_pos s'.snake_head_dir).y) := by
      intro h
      apply hnm
      have : step_point s'.head_pos s'.snake_head_dir = ⟨x, y⟩ := by
        ext
        · exact h.1.symm
        · exact h.2.symm
      rw [this, ← hseg]
      exact e9.tail_mem
    refine ⟨movedState s', main_tick_moved rng fuel s' e9 ha, ?_, ?_, ?_⟩
    · simp only [movedState, e5]
    · rw [cells_movedState, if_neg hne, hseg]
      simp
    · simp only [movedState, e2]
      omega

/-- Witness for C11: spawned at (10,10) heading left with length 1 the snake is the
single head cell (10,10); a tick then moves the head to (10,9), leaves (10,10)
empty and keeps the size 1. -/
theorem spawn_snake_on_empty_grid_witness :
    inSnake (start 0).snake_begin ∧ (start 0).snake_size = 0 ∧ inGrid 10 10 ∧
      ∃ s', spawn_snake 10 10 Dir.left 1 (start 0) = Res.ok s' ∧ s'.snake_size = 1 ∧
        contents s' = [⟨10, 10⟩] ∧ s'.cells 10 10 = Cell.cell_head ∧
        ∃ s'', main_tick (fun _ => 0) 0 s' = Res.ok s'' ∧ s''.head_pos = ⟨10, 9⟩ ∧
          s''.cells 10 10 = Cell.cell_empty ∧ s''.snake_size = 1 := by
  obtain ⟨s', h1, _, h2, h3, _, h4, h5, _, h6, h7⟩ :=
    spawn_snake_on_empty_grid 10 10 Dir.left 1 (start 0) (by decide) rfl (fun _ _ => rfl)
      (by decide) (by decide) (by decide)
  have hhead : s'.head_pos = ⟨10, 10⟩ := h4
  have hahead : ahead s' = Cell.cell_empty := by
    unfold ahead
    apply h6
    rw [h3]
    have : step_point s'.head_pos s'.snake_head_dir = ⟨10, 9⟩ := by
      rw [hhead, ‹s'.snake_head_dir = Dir.left›]; rfl
    rw [this]
    decide
  obtain ⟨s'', g1, g2, g3, g4⟩ := h7 (fun _ => 0) 0 hahead
  refine ⟨by decide, rfl, by decide, s', h1, h2, h3, ?_, s'', g1, ?_, g3, g4⟩
  · rw [hhead] at h5; exact h5
  · rw [g2, hhead]; rfl

/-- C12 (as stated, refuted): in a paused state the key `p`, which is not `q`,
clears the flag before the flag is tested, so the tick of that same iteration
runs: the head moves from (10,10) to (10,11). -/
theorem pause_key_while_paused_ticks :
    ({ demo Dir.right with pause_flag := true } : State).pause_flag = true ∧
      ({ demo Dir.right with pause_flag := true } : State).head_pos = ⟨10, 10⟩ ∧
      ∃ s', main_iter (fun _ => 0) 0 (Input.key 'p')
          { demo Dir.right with pause_flag := true } = Res.ok s' ∧
        s'.head_pos = ⟨10, 11⟩ ∧ s'.cells 10 10 = Cell.cell_empty ∧
        s'.cells 10 11 = Cell.cell_head :=
  ⟨rfl, rfl, _, rfl, rfl, rfl, rfl⟩

/-- C12 (amended): the key `p` flips the pause flag and changes nothing else.  A
loop iteration that starts paused and reads no key, or a key other than `q` and
`p`, stays paused and leaves grid, ring buffer, `snake_begin`, `snake_size`,
`head_pos` and `score` unchanged; so does the iteration in which `p` pauses a
running game. -/
theorem pause_is_toggle_with_frame (rng : Nat → Nat) (fuel : Nat) (inp : Input) (s : State)
    (hp : s.pause_flag = true)
    (hk : inp = Input.nothing ∨ ∃ c, inp = Input.key c ∧ c ≠ 'q' ∧ c ≠ 'p') :
    main_key 'p' s = Res.ok { s with pause_flag := !s.pause_flag } ∧
    (∃ s', main_iter rng fuel inp s = Res.ok s' ∧ s'.pause_flag = true ∧
      s'.cells = s.cells ∧ s'.snake = s.snake ∧ s'.snake_begin = s.snake_begin ∧
      s'.snake_size = s.snake_size ∧ s'.head_pos = s.head_pos ∧ s'.score = s.score) ∧
    (∀ t : State, t.pause_flag = false →
      main_iter rng fuel (Input.key 'p') t = Res.ok { t with pause_flag := true }) := by
  refine ⟨by simp [main_key], ?_, ?_⟩
  · have hin : ∃ s1, main_input inp s = Res.ok s1 ∧ s1.pause_flag = true := by
      rcases hk with rfl | ⟨c, rfl, hq, hpp⟩
      · exact ⟨s, rfl, hp⟩
      · simp only [main_input, main_key, hq, hpp, if_false]
        split_ifs <;> exact ⟨_, rfl, hp⟩
    obtain ⟨s1, h1, h2⟩ := hin
    obtain ⟨f1, f2, f3, f4, f5, f6, _⟩ := main_input_frame inp s s1 h1
    refine ⟨s1, ?_, h2, f1, f2, f3, f4, f5, f6⟩
    simp only [main_iter, h1, Res.bind, h2, Bool.not_true]
    rfl
  · intro t ht
    simp [main_iter, main_input, main_key, Res.bind, ht]

/-- Witness for C12 (amended): the paused one-cell snake at (10,10) reads the key
`k`; the heading changes, the game state does not. -/
theorem pause_is_toggle_with_frame_witness :
    ({ demo Dir.right with pause_flag := true } : State).pause_flag = true ∧
      ∃ s', main_iter (fun _ => 0) 0 (Input.key 'k')
          { demo Dir.right with pause_flag := true } = Res.ok s' ∧
        s'.pause_flag = true ∧ s'.head_pos = ⟨10, 10⟩ ∧ s'.score = 0 := by
  obtain ⟨s', h1, h2, _, _, _, _, h3, h4⟩ :=
    (pause_is_toggle_with_frame (fun _ => 0) 0 (Input.key 'k')
      { demo Dir.right with pause_flag := true } rfl
      (Or.inr ⟨'k', rfl, by decide, by decide⟩)).2.1
  exact ⟨rfl, s', h1, h2, h3, h4⟩

/-- C13: `set_high_score` replaces the content of the file by `score` exactly
when `score > high_score` and changes nothing else (42 against a stored 10 leaves
42, 5 against 10 leaves 10, 10 against 10 does not write); `quit` performs it
before leaving, on the quit key, a failed read, a lost game, the win exit of
`snake_add` and the underflow exit of `snake_del`.  `get_high_score` loads into
`high_score` what `fscanf` reads from the file and leaves the file as it is (an
absent file is created holding 0), and every run of the program that exits has
still that loaded `high_score` and leaves the file holding the final score when
this exceeds the loaded value, and untouched otherwise. -/
theorem high_score_persistence (rng : Nat → Nat) (fuel : Nat) (scan : Int → Int)
    (file : Option Int) (inputs : List Input) :
    (∀ s, set_high_score s =
      { s with hs_file := if s.score > s.high_score then some s.score else s.hs_file }) ∧
    (set_high_score { start 10 with score := 42 }).hs_file = some 42 ∧
    (set_high_score { start 10 with score := 5 }).hs_file = some 10 ∧
    (set_high_score { start 10 with score := 10 }) = { start 10 with score := 10 } ∧
    (∀ c s, (quit c s : Res State) = Res.exit c (set_high_score s)) ∧
    (∀ s, main_key 'q' s = Res.exit 0 (set_high_score s)) ∧
    (∀ s, main_input Input.failure s = Res.exit 1 (set_high_score s)) ∧
    (∀ s, inGrid s.head_pos.x s.head_pos.y →
      setCell s.cells s.head_pos.x s.head_pos.y Cell.cell_body
        (step_point s.head_pos s.snake_head_dir).x
        (step_point s.head_pos s.snake_head_dir).y = Cell.cell_body →
      main_tick rng fuel s = Res.exit 0 (set_high_score (print "You lost!\n"
        { s with cells := setCell s.cells s.head_pos.x s.head_pos.y Cell.cell_body,
                 head_pos := step_point s.head_pos s.snake_head_dir }))) ∧
    (∀ x y s, SNAKE_CAP ≤ s.snake_size →
      snake_add x y s = Res.exit 0 (set_high_score (print "You Won!" s))) ∧
    (∀ s, s.snake_size ≤ 0 → snake_del s =
      Res.exit 1 (set_high_score (print "Assertion Failed: Snake underflow!" s))) ∧
    (∀ v, (get_high_score scan (globals (some v))).high_score = scan v ∧
      (get_high_score scan (globals (some v))).hs_file = some v) ∧
    ((get_high_score scan (globals none)).high_score = 0 ∧
      (get_high_score scan (globals none)).hs_file = some 0) ∧
    (∀ c st, main_run rng fuel scan file inputs = Res.exit c st →
      st.high_score = (get_high_score scan (globals file)).high_score ∧
      st.hs_file =
        if st.score > (get_high_score scan (globals file)).high_score then some st.score
        else (get_high_score scan (globals file)).hs_file) := by
  refine ⟨?_, by decide, by decide, rfl, fun _ _ => rfl, fun _ => rfl, fun _ => rfl,
    fun s hh hn => main_tick_lost rng fuel s hh hn,
    fun x y s h => snake_add_full x y s h, fun s h => snake_del_empty s h,
    fun _ => ⟨rfl, rfl⟩, ⟨rfl, rfl⟩, ?_⟩
  · intro s
    unfold set_high_score
    split <;> rfl
  · intro c st h
    have ho := main_run_outcome rng fuel scan file inputs
    rw [h] at ho
    obtain ⟨t, rfl, h1, h2, _⟩ := ho
    unfold set_high_score
    split
    · rename_i hgt
      rw [h2] at hgt
      exact ⟨h2, by simp only [if_pos hgt]⟩
    · rename_i hgt
      rw [h2] at hgt
      exact ⟨h2, by simp only [if_neg hgt, h1]⟩

/-- C14: every state in which a run of the program stands between two loop
iterations is consistent: the ring-buffer points are pairwise distinct, the cell of
the newest one is `cell_head`, the cells of the others are `cell_body`, at most one
cell is `cell_egg`, every cell off the snake is `cell_empty` or that egg, and so
the non-empty cells are exactly the snake cells and the egg. -/
theorem game_loop_keeps_consistency (rng : Nat → Nat) (fuel : Nat) (scan : Int → Int)
    (file : Option Int) (inputs : List Input) (s : State) (h : main_run rng fuel scan file inputs = Res.ok s) :
    Consistent s ∧ (contents s).Nodup ∧
      (contents s).getLast? = some s.head_pos ∧
      s.cells s.head_pos.x s.head_pos.y = Cell.cell_head ∧
      (∀ p ∈ contents s, p ≠ s.head_pos → s.cells p.x p.y = Cell.cell_body) ∧
      (∀ x y a b, inGrid x y → inGrid a b →
        s.cells x y = Cell.cell_egg → s.cells a b = Cell.cell_egg → x = a ∧ y = b) ∧
      (∀ x y, inGrid x y → (⟨x, y⟩ : Point) ∉ contents s →
        s.cells x y = Cell.cell_empty ∨ s.cells x y = Cell.cell_egg) ∧
      (∀ x y, inGrid x y →
        (s.cells x y ≠ Cell.cell_empty ↔
          ((⟨x, y⟩ : Point) ∈ contents s ∨ s.cells x y = Cell.cell_egg))) := by
  have ho := main_run_outcome rng fuel scan file inputs
  rw [h] at ho
  have hc := ho.1.consistent
  refine ⟨hc, hc.nodup, hc.head_last, hc.head_cell, hc.body_cell, hc.one_egg, hc.rest, ?_⟩
  intro x y hxy
  constructor
  · intro hne
    by_cases hm : (⟨x, y⟩ : Point) ∈ contents s
    · exact Or.inl hm
    · rcases hc.rest x y hxy hm with h1 | h1
      · exact absurd h1 hne
      · exact Or.inr h1
  · rintro (hm | he)
    · exact hc.cell_ne_empty ⟨x, y⟩ hm
    · rw [he]; simp

/-- Witness for C14: the run that starts with the egg at (10,9) and ticks once. -/
theorem game_loop_keeps_consistency_witness :
    ∃ s, main_run rngDemo 1 id none [Input.nothing] = Res.ok s ∧ Consistent s ∧
      contents s = [⟨10, 10⟩, ⟨10, 9⟩] := by
  have h : ∃ s, main_run rngDemo 1 id none [Input.nothing] = Res.ok s ∧
      contents s = [⟨10, 10⟩, ⟨10, 9⟩] := ⟨_, rfl, rfl⟩
  obtain ⟨s, h1, h2⟩ := h
  exact ⟨s, h1, (game_loop_keeps_consistency rngDemo 1 id none [Input.nothing] s h1).1, h2⟩

/-- C15 (not met by the code): after the first tick has eaten the egg at (10,9)
the snake is [(10,10), (10,9)] heading left.  The keys `p`, `k`, `l` then pause
the game and turn the heading up and, from up, right: each request is compared
with the current heading only.  The next `p` resumes, and the tick of that
iteration steps the head right onto (10,10), the segment immediately behind it:
the run ends with "You lost!". -/
theorem paused_turns_reverse_into_neck :
    (∃ s, main_run rngDemo 1 id none [Input.nothing] = Res.ok s ∧
      contents s = [⟨10, 10⟩, ⟨10, 9⟩] ∧ s.snake_head_dir = Dir.left) ∧
    (∃ s s1, main_run rngDemo 1 id none
        [Input.nothing, Input.key 'p', Input.key 'k', Input.key 'l'] = Res.ok s ∧
      s.snake_size = 2 ∧ s.pause_flag = true ∧
      main_input (Input.key 'p') s = Res.ok s1 ∧ s1.pause_flag = false ∧
      s1.snake_head_dir = Dir.right ∧
      step_point s1.head_pos s1.snake_head_dir = seg s1 (s1.snake_size - 2)) ∧
    (∃ st, main_run rngDemo 1 id none
        [Input.nothing, Input.key 'p', Input.key 'k', Input.key 'l', Input.key 'p'] =
          Res.exit 0 st ∧ st.out = ["You lost!\n"]) :=
  ⟨⟨_, rfl, rfl, rfl⟩, ⟨_, _, rfl, rfl, rfl, rfl, rfl, rfl, rfl⟩, ⟨_, rfl, rfl⟩⟩

/-- C16: in every state in which a run stands between two loop iterations
`snake_size >= 1`, the call of `snake_del` made by a tick from there (after the
head is demoted and stepped) returns, and no run of the program exits with the
message of the underflow branch. -/
theorem no_underflow_in_play (rng : Nat → Nat) (fuel : Nat) (scan : Int → Int)
    (file : Option Int) (inputs : List Input) :
    (∀ s, main_run rng fuel scan file inputs = Res.ok s →
      1 ≤ s.snake_size ∧
      ∃ s3, snake_del
        { s with cells := setCell s.cells s.head_pos.x s.head_pos.y Cell.cell_body,
                 head_pos := step_point s.head_pos s.snake_head_dir } = Res.ok s3) ∧
    (∀ c st, main_run rng fuel scan file inputs = Res.exit c st →
      "Assertion Failed: Snake underflow!" ∉ st.out) := by
  have ho := main_run_outcome rng fuel scan file inputs
  refine ⟨?_, ?_⟩
  · intro s h
    rw [h] at ho
    have hc := ho.1.consistent
    have hp := hc.size_pos
    exact ⟨by omega, _, snake_del_ok _ hc.begin_ok hp (hc.in_grid _ hc.tail_mem)⟩
  · intro c st h
    rw [h] at ho
    obtain ⟨t, rfl, _, _, _, _, hout⟩ := ho
    have : (set_high_score t).out = t.out := by
      unfold set_high_score; split <;> rfl
    rw [this]
    rcases hout with ⟨_, h1⟩ | ⟨h1, _⟩ <;> rw [h1] <;> decide

/-- C17: no run of the program indexes `cells` or `snake` outside their bounds;
in every state in which a run stands between two loop iterations `head_pos` and
all live ring-buffer points are in range, `head_pos` is the newest ring-buffer
point, `snake_begin` and `snake_size` are in range, and the next iteration stays
in bounds as well. -/
theorem grid_accesses_in_range (rng : Nat → Nat) (fuel : Nat) (scan : Int → Int)
    (file : Option Int) (inputs : List Input) :
    main_run rng fuel scan file inputs ≠ Res.fault ∧
    (∀ s, main_run rng fuel scan file inputs = Res.ok s →
      inGrid s.head_pos.x s.head_pos.y ∧ (∀ p ∈ contents s, inGrid p.x p.y) ∧
      (contents s).getLast? = some s.head_pos ∧ inSnake s.snake_begin ∧
      0 < s.snake_size ∧ s.snake_size < SNAKE_CAP ∧
      inGrid (step_point s.head_pos s.snake_head_dir).x
        (step_point s.head_pos s.snake_head_dir).y ∧
      ∀ inp, main_iter rng fuel inp s ≠ Res.fault) := by
  have ho := main_run_outcome rng fuel scan file inputs
  refine ⟨?_, ?_⟩
  · intro h
    rw [h] at ho
    exact ho
  · intro s h
    rw [h] at ho
    have hc := ho.1.consistent
    refine ⟨hc.head_inGrid, hc.in_grid, hc.head_last, hc.begin_ok, hc.size_pos,
      ho.1.size_lt, hc.next_inGrid _, ?_⟩
    intro inp hf
    have := main_iter_outcome rng fuel inp s _ _ ho.1 ho.2.1 ho.2.2
    rw [hf] at this
    exact this

/-- C18: in every state in which a run of the program stands between two loop
iterations `score = snake_size - 1`, so the score is at least 0 and at most
`ROWS * COLS - 1`. -/
theorem score_is_length_minus_one (rng : Nat → Nat) (fuel : Nat) (scan : Int → Int)
    (file : Option Int) (inputs : List Input) (s : State) (h : main_run rng fuel scan file inputs = Res.ok s) :
    s.score = s.snake_size - 1 ∧ 0 ≤ s.score ∧ s.score ≤ ROWS * COLS - 1 := by
  have ho := main_run_outcome rng fuel scan file inputs
  rw [h] at ho
  have h1 := ho.1.score_range
  have h2 : SNAKE_CAP = ROWS * COLS := rfl
  refine ⟨ho.1.score_eq, h1.1, ?_⟩
  rw [← h2]
  omega

/-- Witness for C18: after the first tick has eaten the egg the length is 2 and
the score 1. -/
theorem score_is_length_minus_one_witness :
    ∃ s, main_run rngDemo 1 id none [Input.nothing] = Res.ok s ∧ s.snake_size = 2 ∧
      s.score = s.snake_size - 1 := by
  have h : ∃ s, main_run rngDemo 1 id none [Input.nothing] = Res.ok s ∧ s.snake_size = 2 :=
    ⟨_, rfl, rfl⟩
  obtain ⟨s, h1, h2⟩ := h
  exact ⟨s, h1, h2, (score_is_length_minus_one rngDemo 1 id none [Input.nothing] s h1).1⟩

/-- C19: in every state in which a run stands between two loop iterations the egg
lies off the snake, so `snake_size < SNAKE_CAP` at the `snake_add` of the next
tick (which follows a `snake_del` or an eaten egg, never a full buffer): that
call returns, and no run of the program exits with "You Won!" printed. -/
theorem won_branch_unreachable (rng : Nat → Nat) (fuel : Nat) (scan : Int → Int)
    (file : Option Int) (inputs : List Input) :
    (∀ s, main_run rng fuel scan file inputs = Res.ok s →
      s.snake_size < SNAKE_CAP ∧
      (∀ c st, main_tick rng fuel s = Res.exit c st → "You Won!" ∉ st.out) ∧
      (ahead s = Cell.cell_egg ∨ ahead s = Cell.cell_empty →
        ∀ c st, main_tick rng fuel s ≠ Res.exit c st)) ∧
    (∀ c st, main_run rng fuel scan file inputs = Res.exit c st → "You Won!" ∉ st.out) := by
  have ho := main_run_outcome rng fuel scan file inputs
  have hout : ∀ (hs : Int) (f : Option Int) (r : Res State) c st, Outcome hs f r →
      r = Res.exit c st → "You Won!" ∉ st.out := by
    intro hs f r c st h hr
    rw [hr] at h
    obtain ⟨t, rfl, _, _, _, _, ho'⟩ := h
    have : (set_high_score t).out = t.out := by
      unfold set_high_score; split <;> rfl
    rw [this]
    rcases ho' with ⟨_, h1⟩ | ⟨h1, _⟩ <;> rw [h1] <;> decide
  refine ⟨?_, fun c st h => hout _ _ _ c st ho h⟩
  intro s h
  rw [h] at ho
  refine ⟨ho.1.size_lt, ?_, ?_⟩
  · intro c st ht
    exact hout _ _ _ c st (main_tick_outcome rng fuel s _ _ ho.1 ho.2.1 ho.2.2) ht
  · intro ha c st ht
    rcases main_tick_cases rng fuel s ho.1.consistent with
      ⟨_, h1⟩ | ⟨_, h1⟩ | ⟨_, k, _, _, h1⟩ | ⟨hb, _⟩
    · rw [h1] at ht; cases ht
    · rw [h1] at ht; cases ht
    · rw [h1] at ht; cases ht
    · rcases ha with ha | ha <;> rw [ha] at hb <;> cases hb

end Snek
